import Mathlib

/-!
Verification of the AutoService report subsystem (`src-tauri/src/reports.rs`)
and of the spec-described run-control surface.

The Rust code is shallowly embedded:
* strings are `List Char` (with `String` wrappers where convenient);
* the filesystem touched by the network replicator is an explicit state
  (`DstFs` / `St`) threaded through the translated functions;
* fallible OS primitives (`fs::create_dir_all`, `fs::read_dir`, `fs::copy`,
  opening the log file) are given their outcomes by an explicit environment
  (`Env`), and wall-clock time is a natural-number counter advanced by the
  durations the environment assigns to each primitive call;
* the walk over the source directory recurses over an immutable snapshot
  tree (`FsTree`) of the local report folder, which the copy never mutates
  (the destination is a network share, disjoint from the local source).

Functions keep the names of the Rust functions they translate.
-/

namespace AutoService

/-! ## Characters and strings: `str::trim`, `str::replace`, `starts_with`,
`trim_start_matches` as used by `normalize_unc_path` (reports.rs:549-577). -/

/-- Unicode `White_Space` property, as used by Rust's `str::trim`. -/
def rustIsWhitespace (c : Char) : Bool :=
  c = '\x09' || c = '\x0a' || c = '\x0b' || c = '\x0c' || c = '\x0d' ||
  c = ' ' || c = '\u0085' || c = ' ' || c = ' ' ||
  (0x2000 ≤ c.toNat && c.toNat ≤ 0x200a) ||
  c = ' ' || c = ' ' || c = ' ' || c = ' ' || c = '　'

/-- Rust `str::trim`: remove whitespace from both ends. -/
def trimChars (l : List Char) : List Char :=
  List.rdropWhile rustIsWhitespace (List.dropWhile rustIsWhitespace l)

/-- Rust `str::replace(a, b)` for single characters. -/
def replaceChar (a b : Char) (l : List Char) : List Char :=
  l.map fun c => if c = a then b else c

/-- Rust `str::starts_with` on character lists (pattern first). -/
def startsWithChars : List Char → List Char → Bool
  | [], _ => true
  | _ :: _, [] => false
  | a :: as, b :: bs => a = b && startsWithChars as bs

theorem startsWithChars_length (p l : List Char) (h : startsWithChars p l = true) :
    p.length ≤ l.length := by
  induction p generalizing l with
  | nil => simp
  | cons a as ih =>
    cases l with
    | nil => simp [startsWithChars] at h
    | cons b bs =>
      simp only [startsWithChars, Bool.and_eq_true] at h
      simpa using ih bs h.2

/-- Rust `str::trim_start_matches(pat)`: repeatedly strip the pattern from
the front while it matches. -/
def trimStartMatchesChars (pat l : List Char) : List Char :=
  if h : pat.length ≠ 0 ∧ startsWithChars pat l = true then
    trimStartMatchesChars pat (l.drop pat.length)
  else l
termination_by l.length
decreasing_by
  have hlen := startsWithChars_length pat l h.2
  have h0 : 0 < pat.length := Nat.pos_of_ne_zero h.1
  simp only [List.length_drop]
  omega

/-- The non-Windows branch of `normalize_unc_path` (reports.rs:568-576):
trim, keep a leading `//` as is, otherwise turn backslashes into slashes. -/
def normalizeUncCore (s : List Char) : List Char :=
  if startsWithChars ['/', '/'] (trimChars s) then trimChars s
  else replaceChar '\\' '/' (trimChars s)

/-- The Windows branch of `normalize_unc_path` (reports.rs:553-567):
trim, turn slashes into backslashes, then ensure a leading `\\`
(`s` in the Rust code is `trimmed.replace('/', "\\")`). -/
def normalizeUncCoreWin (s : List Char) : List Char :=
  if startsWithChars ['\\', '\\'] (replaceChar '/' '\\' (trimChars s)) then
    replaceChar '/' '\\' (trimChars s)
  else if startsWithChars ['\\'] (replaceChar '/' '\\' (trimChars s)) then
    '\\' :: replaceChar '/' '\\' (trimChars s)
  else if startsWithChars ['/', '/'] (replaceChar '/' '\\' (trimChars s)) then
    '\\' :: '\\' ::
      replaceChar '/' '\\' (trimStartMatchesChars ['/', '/'] (replaceChar '/' '\\' (trimChars s)))
  else replaceChar '/' '\\' (trimChars s)

/-- Model of `normalize_unc_path` on `String`, non-Windows configuration. -/
def normalize_unc_path (s : String) : String :=
  String.mk (normalizeUncCore s.data)

/-- Model of `normalize_unc_path` on `String`, Windows configuration. -/
def normalize_unc_path_windows (s : String) : String :=
  String.mk (normalizeUncCoreWin s.data)

/-! ### Trim lemmas -/

theorem dropWhile_eq_self_of_starts (p : Char → Bool) (s t : List Char)
    (hm : List.dropWhile p (s ++ t) = s ++ t) : List.dropWhile p s = s := by
  cases s with
  | nil => simp
  | cons a as =>
    have ha : p a = false := by
      by_contra hb
      have hpa : p a = true := by
        cases hx : p a
        · exact absurd hx hb
        · rfl
      have h1 : List.dropWhile p (a :: (as ++ t)) = List.dropWhile p (as ++ t) := by
        simp [List.dropWhile_cons, hpa]
      rw [List.cons_append] at hm
      rw [hm] at h1
      have h2 : (List.dropWhile p (as ++ t)).length ≤ (as ++ t).length :=
        (List.dropWhile_sublist _).length_le
      rw [← h1] at h2
      simp at h2
    simp [List.dropWhile_cons, ha]

theorem trimChars_trimChars (l : List Char) :
    trimChars (trimChars l) = trimChars l := by
  unfold trimChars
  set p := rustIsWhitespace
  set m := List.dropWhile p l with hm
  have hmm : List.dropWhile p m = m := List.dropWhile_idempotent p l
  have hpre : List.rdropWhile p m <+: m := List.rdropWhile_prefix p m
  obtain ⟨t, ht⟩ := hpre
  have h1 : List.dropWhile p (List.rdropWhile p m) = List.rdropWhile p m := by
    refine dropWhile_eq_self_of_starts p _ t ?_
    rw [ht]; exact hmm
  rw [h1]
  exact List.rdropWhile_idempotent p m

theorem trimChars_map (f : Char → Char)
    (hf : ∀ c, rustIsWhitespace (f c) = rustIsWhitespace c) (l : List Char) :
    trimChars (l.map f) = (trimChars l).map f := by
  have hcomp : (rustIsWhitespace ∘ f) = rustIsWhitespace := funext hf
  unfold trimChars List.rdropWhile
  rw [List.dropWhile_map, hcomp, ← List.map_reverse, List.dropWhile_map, hcomp,
    ← List.map_reverse]

theorem replaceChar_not_mem (a b : Char) (hab : b ≠ a) (l : List Char) :
    a ∉ replaceChar a b l := by
  intro hmem
  unfold replaceChar at hmem
  obtain ⟨c, _, hc⟩ := List.mem_map.mp hmem
  by_cases h : c = a
  · simp [h] at hc; exact hab hc
  · simp [h] at hc

theorem replaceChar_of_not_mem (a b : Char) (l : List Char) (h : a ∉ l) :
    replaceChar a b l = l := by
  induction l with
  | nil => rfl
  | cons x xs ih =>
    have hx : x ≠ a := fun he => h (he ▸ List.mem_cons_self x xs)
    have hxs : a ∉ xs := fun hm => h (List.mem_cons_of_mem x hm)
    have ihx := ih hxs
    simp only [replaceChar, List.map_cons] at ihx ⊢
    rw [if_neg hx, ihx]

theorem trimChars_eq_self_parts (l : List Char) (h : trimChars l = l) :
    List.dropWhile rustIsWhitespace l = l ∧ List.rdropWhile rustIsWhitespace l = l := by
  have hlen1 : (trimChars l).length ≤ (List.dropWhile rustIsWhitespace l).length :=
    ( List.rdropWhile_prefix rustIsWhitespace (List.dropWhile rustIsWhitespace l)).length_le
  have hlen2 : (List.dropWhile rustIsWhitespace l).length ≤ l.length :=
    (List.dropWhile_suffix rustIsWhitespace).length_le
  have hlen : (trimChars l).length = l.length := congrArg List.length h
  have hml : List.dropWhile rustIsWhitespace l = l :=
    (List.dropWhile_suffix rustIsWhitespace).eq_of_length (by omega)
  refine ⟨hml, ?_⟩
  have hrw : List.rdropWhile rustIsWhitespace l = trimChars l := by
    unfold trimChars; rw [hml]
  rw [hrw, h]

theorem trimChars_cons (a : Char) (l : List Char) (ha : rustIsWhitespace a = false)
    (h : trimChars l = l) : trimChars (a :: l) = a :: l := by
  obtain ⟨h1, h2⟩ := trimChars_eq_self_parts l h
  unfold trimChars
  rw [List.dropWhile_cons, ha]
  simp only [Bool.false_eq_true, if_false]
  rw [List.rdropWhile_eq_self_iff]
  intro hl
  cases l with
  | nil => simpa using ha
  | cons b bs =>
    simp only [List.getLast_cons_cons]
    have hlast := List.rdropWhile_eq_self_iff.mp h2 (by simp)
    simpa using hlast

theorem wsReplaceSlashOfBack (c : Char) :
    rustIsWhitespace (if c = '\\' then '/' else c) = rustIsWhitespace c := by
  by_cases h : c = '\\'
  · rw [if_pos h, h]; decide
  · rw [if_neg h]

theorem wsReplaceBackOfSlash (c : Char) :
    rustIsWhitespace (if c = '/' then '\\' else c) = rustIsWhitespace c := by
  by_cases h : c = '/'
  · rw [if_pos h, h]; decide
  · rw [if_neg h]

theorem replaceChar_idem (a b : Char) (hab : b ≠ a) (l : List Char) :
    replaceChar a b (replaceChar a b l) = replaceChar a b l :=
  replaceChar_of_not_mem a b _ (replaceChar_not_mem a b hab l)

theorem trimChars_replaceChar_trim (a b : Char)
    (hws : ∀ c, rustIsWhitespace (if c = a then b else c) = rustIsWhitespace c)
    (s : List Char) :
    trimChars (replaceChar a b (trimChars s)) = replaceChar a b (trimChars s) := by
  unfold replaceChar
  rw [trimChars_map _ hws, trimChars_trimChars]

/-- Claim C10 — `normalize_unc_path` is idempotent: applying it twice gives the
same string as applying it once, in both the Windows and the non-Windows
configuration of reports.rs:549-577. -/
theorem claim_C10_normalize_unc_path_idempotent :
    (∀ s : String, normalize_unc_path (normalize_unc_path s) = normalize_unc_path s) ∧
    (∀ s : String,
      normalize_unc_path_windows (normalize_unc_path_windows s) =
        normalize_unc_path_windows s) := by
  have hcore : ∀ l : List Char, normalizeUncCore (normalizeUncCore l) = normalizeUncCore l := by
    intro l
    by_cases h : startsWithChars ['/', '/'] (trimChars l) = true
    · have hr : normalizeUncCore l = trimChars l := by
        unfold normalizeUncCore; rw [if_pos h]
      rw [hr]
      unfold normalizeUncCore
      rw [trimChars_trimChars l, if_pos h]
    · have hr : normalizeUncCore l = replaceChar '\\' '/' (trimChars l) := by
        unfold normalizeUncCore; rw [if_neg h]
      rw [hr]
      unfold normalizeUncCore
      have htr : trimChars (replaceChar '\\' '/' (trimChars l)) =
          replaceChar '\\' '/' (trimChars l) :=
        trimChars_replaceChar_trim '\\' '/' wsReplaceSlashOfBack l
      rw [htr]
      by_cases h2 : startsWithChars ['/', '/'] (replaceChar '\\' '/' (trimChars l)) = true
      · rw [if_pos h2]
      · rw [if_neg h2]
        exact replaceChar_idem '\\' '/' (by decide) (trimChars l)
  have hslash2 : ∀ v : List Char, '/' ∉ v → ¬ startsWithChars ['/', '/'] v = true := by
    intro v hv hsw
    cases v with
    | nil => simp [startsWithChars] at hsw
    | cons x xs =>
      simp only [startsWithChars, Bool.and_eq_true, decide_eq_true_eq] at hsw
      exact hv (hsw.1 ▸ List.mem_cons_self x xs)
  have hwin : ∀ l : List Char,
      normalizeUncCoreWin (normalizeUncCoreWin l) = normalizeUncCoreWin l := by
    intro l
    have hut : trimChars (replaceChar '/' '\\' (trimChars l)) =
        replaceChar '/' '\\' (trimChars l) :=
      trimChars_replaceChar_trim '/' '\\' wsReplaceBackOfSlash l
    have hnoSlash : '/' ∉ replaceChar '/' '\\' (trimChars l) :=
      replaceChar_not_mem '/' '\\' (by decide) (trimChars l)
    have hreplU : ∀ v : List Char, '/' ∉ v → replaceChar '/' '\\' v = v := fun v hv =>
      replaceChar_of_not_mem '/' '\\' v hv
    by_cases h1 : startsWithChars ['\\', '\\'] (replaceChar '/' '\\' (trimChars l)) = true
    · have hr : normalizeUncCoreWin l = replaceChar '/' '\\' (trimChars l) := by
        unfold normalizeUncCoreWin; rw [if_pos h1]
      rw [hr]
      unfold normalizeUncCoreWin
      rw [hut, hreplU _ hnoSlash, if_pos h1]
    · by_cases h2 : startsWithChars ['\\'] (replaceChar '/' '\\' (trimChars l)) = true
      · have hr : normalizeUncCoreWin l = '\\' :: replaceChar '/' '\\' (trimChars l) := by
          unfold normalizeUncCoreWin; rw [if_neg h1, if_pos h2]
        rw [hr]
        unfold normalizeUncCoreWin
        have hcons : trimChars ('\\' :: replaceChar '/' '\\' (trimChars l)) =
            '\\' :: replaceChar '/' '\\' (trimChars l) :=
          trimChars_cons _ _ (by decide) hut
        have hnoSlashC : '/' ∉ '\\' :: replaceChar '/' '\\' (trimChars l) := by
          intro hmem
          rcases List.mem_cons.mp hmem with hx | hx
          · exact absurd hx.symm (by decide)
          · exact hnoSlash hx
        rw [hcons, hreplU _ hnoSlashC]
        have hstart2 : startsWithChars ['\\', '\\']
            ('\\' :: replaceChar '/' '\\' (trimChars l)) = true := by
          cases hu : replaceChar '/' '\\' (trimChars l) with
          | nil => rw [hu] at h2; simp [startsWithChars] at h2
          | cons x xs =>
            rw [hu] at h2
            simp only [startsWithChars, Bool.and_eq_true, decide_eq_true_eq] at h2 ⊢
            exact ⟨trivial, h2.1, trivial⟩
        rw [if_pos hstart2]
      · have hr : normalizeUncCoreWin l = replaceChar '/' '\\' (trimChars l) := by
          unfold normalizeUncCoreWin
          rw [if_neg h1, if_neg h2, if_neg (hslash2 _ hnoSlash)]
        rw [hr]
        unfold normalizeUncCoreWin
        rw [hut, hreplU _ hnoSlash, if_neg h1, if_neg h2, if_neg (hslash2 _ hnoSlash)]
  constructor
  · intro s
    unfold normalize_unc_path
    exact congrArg String.mk (hcore s.data)
  · intro s
    unfold normalize_unc_path_windows
    exact congrArg String.mk (hwin s.data)

/-! ## Filesystem model for the network report replicator
(reports.rs:468-775).

Paths are component lists (the non-Windows configuration of the code is
modelled: `prepare_path_for_io` is the identity and `normalize_unc_path`
keeps forward slashes).  The local source folder is an immutable snapshot
tree `FsTree`; the destination world (the network share) is an explicit
`DstFs` inside the state `St`.  The outcomes and durations of the fallible
OS primitives are supplied by `Env`. -/

abbrev Path := List String

abbrev Bytes := List Nat

/-- Snapshot of a directory tree (the local report folder being copied). -/
inductive FsTree where
  | file (content : Bytes)
  | dir (entries : List (String × FsTree))

/-- The `std::io::ErrorKind` values this code distinguishes. -/
inductive IoErrorKind where
  | notFound
  | permissionDenied
  | timedOut
  | otherKind
deriving DecidableEq, Repr

/-- An `std::io::Error`: a kind plus the display message. -/
structure IoError where
  kind : IoErrorKind
  msg : String
deriving DecidableEq, Repr

/-- The destination filesystem (the network share): existing directories and
files with contents. -/
structure DstFs where
  dirs : List Path
  files : List (Path × Bytes)
deriving DecidableEq, Repr

def DstFs.filePaths (fs : DstFs) : List Path :=
  fs.files.map Prod.fst

/-- Model of `Path::exists` on the destination world. -/
def DstFs.existsPath (fs : DstFs) (p : Path) : Bool :=
  fs.dirs.contains p || fs.filePaths.contains p

/-- Model of `fs::create_dir_all`: creates the directory and all its ancestors. -/
def DstFs.mkDirAll (fs : DstFs) (p : Path) : DstFs :=
  { fs with dirs := p.inits.filter (fun q => !q.isEmpty) ++ fs.dirs }

/-- A successful `fs::copy` writes the file at the destination path
(overwriting any previous content). -/
def DstFs.writeFile (fs : DstFs) (p : Path) (b : Bytes) : DstFs :=
  { fs with files := (p, b) :: fs.files }

def DstFs.lookupFile (fs : DstFs) (p : Path) : Option Bytes :=
  (fs.files.find? (fun e => e.1 == p)).map Prod.snd

/-- State threaded through the copy: the destination world, the lines so far
appended to the `network_copy.log` file (with the time each was written), the
number of logger calls made, and the wall clock (in seconds). -/
structure St where
  fs : DstFs
  log : List (Nat × String)
  logCalls : Nat
  time : Nat
deriving DecidableEq, Repr

/-- Environment: outcomes of the fallible OS primitives and the duration of
each call.  `hasLogFile` is whether `NetworkCopyLogger::new_from_state`
resolved a log path; `logOpenFail k` is whether the `k`-th `OpenOptions`
open of the log file fails (in both failure cases `log` falls back to
stderr and the line never reaches the file). -/
structure Env where
  hasLogFile : Bool
  logOpenFail : Nat → Bool
  createDirFail : Path → Option IoError
  readDirFail : Path → Option IoError
  entryFail : Path → String → Option IoError
  copyFail : Path → Path → Option IoError
  probeFail : Option IoError
  durCreate : Path → Nat
  durRead : Path → Nat
  durCopy : Path → Nat
  durProbe : Nat

/-- Model of `NetworkCopyLogger::log` (reports.rs:489-499): append one timestamped
line to the log file, or silently fall back to stderr when there is no log
path or the open fails. -/
def St.doLog (env : Env) (st : St) (msg : String) : St :=
  if env.hasLogFile && !env.logOpenFail st.logCalls then
    { st with logCalls := st.logCalls + 1, log := st.log ++ [(st.time, msg)] }
  else
    { st with logCalls := st.logCalls + 1 }

/-- Model of `to_user_visible_path` rendering of a model path (non-Windows: the
path's own string). -/
def renderPath (p : Path) : String :=
  String.intercalate "/" p

/-- Model of the check `SystemTime::now() > deadline`. -/
def deadlineExceeded : Option Nat → Nat → Bool
  | none, _ => false
  | some d, t => d < t

/-- Lines 600-612 of reports.rs: if the destination directory does not
exist, create it (with ancestors) and log the creation. -/
def createDirStep (env : Env) (dst : Path) (st : St) : St × Option IoError :=
  if st.fs.existsPath dst then (st, none)
  else
    match env.createDirFail dst with
    | some e =>
      (st, some ⟨e.kind, "Failed to create directory " ++ renderPath dst ++ ": " ++ e.msg⟩)
    | none =>
      let st1 : St := { st with fs := st.fs.mkDirAll dst,
                                time := st.time + env.durCreate dst }
      (st1.doLog env ("Created directory " ++ renderPath dst), none)

/-- The prologue of `copy_dir_recursive` (reports.rs:588-623): deadline
check on entry, creation of the destination directory when absent, and
`fs::read_dir` on the source.  Returns `none` when the entry loop may
start. -/
def copyDirPrologue (env : Env) (deadline : Option Nat) (src dst : Path) (st : St) :
    St × Option IoError :=
  if deadlineExceeded deadline st.time then
    (st, some ⟨IoErrorKind.timedOut, "Copy timed out before processing " ++ renderPath src⟩)
  else
    match createDirStep env dst st with
    | (st1, some e) => (st1, some e)
    | (st1, none) =>
      match env.readDirFail src with
      | some e =>
        (st1, some ⟨e.kind, "Failed to read directory " ++ renderPath src ++ ": " ++ e.msg⟩)
      | none => ({ st1 with time := st1.time + env.durRead src }, none)

/-- Lines 643-658 of reports.rs: log the file copy, run `fs::copy` (whose
outcome `Env` decides), and on success write the destination file and
consume the copy's duration. -/
def copyFileStep (env : Env) (srcFile dstFile : Path) (content : Bytes) (st : St) :
    St × Option IoError :=
  match env.copyFail srcFile dstFile with
  | some e =>
    (st.doLog env ("Copying file " ++ renderPath srcFile ++ " -> " ++ renderPath dstFile),
      some ⟨e.kind,
        "Failed to copy " ++ renderPath srcFile ++ " -> " ++ renderPath dstFile ++
          ": " ++ e.msg⟩)
  | none =>
    (⟨(st.doLog env ("Copying file " ++ renderPath srcFile ++ " -> " ++
          renderPath dstFile)).fs.writeFile dstFile content,
      (st.doLog env ("Copying file " ++ renderPath srcFile ++ " -> " ++
          renderPath dstFile)).log,
      (st.doLog env ("Copying file " ++ renderPath srcFile ++ " -> " ++
          renderPath dstFile)).logCalls,
      st.time + env.durCopy srcFile⟩, none)

/-- The entry loop of `copy_dir_recursive` (reports.rs:625-671), with the
recursive descent inlined: for each entry, read it (may fail), then either
log the descent and recurse into the subdirectory (prologue then loop), or
log and copy the file; after each entry re-check the deadline. -/
def copyEntries (env : Env) (deadline : Option Nat) (src dst : Path) :
    List (String × FsTree) → St → St × Option IoError
  | [], st => (st, none)
  | (name, sub) :: rest, st =>
    match env.entryFail src name with
    | some e =>
      (st, some ⟨e.kind, "Failed to iterate directory " ++ renderPath src ++ ": " ++ e.msg⟩)
    | none =>
      match
        (match sub with
         | FsTree.dir subEntries =>
           match copyDirPrologue env deadline (src ++ [name]) (dst ++ [name])
               (st.doLog env ("Descending into " ++ renderPath (src ++ [name]))) with
           | (st2, some e) => (st2, some e)
           | (st2, none) =>
             copyEntries env deadline (src ++ [name]) (dst ++ [name]) subEntries st2
         | FsTree.file content =>
           copyFileStep env (src ++ [name]) (dst ++ [name]) content st) with
      | (st2, some e) => (st2, some e)
      | (st2, none) =>
        if deadlineExceeded deadline st2.time then
          (st2, some ⟨IoErrorKind.timedOut,
            "Copy timed out while processing " ++ renderPath (src ++ [name])⟩)
        else copyEntries env deadline src dst rest st2
termination_by entries _ => sizeOf entries

/-- Model of `copy_dir_recursive` (reports.rs:579-673): prologue, then the entry
loop over the snapshot of the source directory. -/
def copy_dir_recursive (env : Env) (deadline : Option Nat) (src dst : Path)
    (entries : List (String × FsTree)) (st : St) : St × Option IoError :=
  match copyDirPrologue env deadline src dst st with
  | (st1, some e) => (st1, some e)
  | (st1, none) => copyEntries env deadline src dst entries st1

/-- Helper for `parsePath`: split a character list at `/` separators. -/
def splitPathAux : List Char → List Char → List String
  | [], acc => [String.mk acc.reverse]
  | c :: rest, acc =>
    if c = '/' then String.mk acc.reverse :: splitPathAux rest []
    else splitPathAux rest (c :: acc)

/-- Model of `PathBuf::from(&normalized)` then component-wise traversal: the
normalized share string as a component path (empty components dropped). -/
def parsePath (s : String) : Path :=
  (splitPathAux s.data []).filter (fun c => c != "")

/-- Network sharing configuration (reports.rs:541-547). -/
structure NetworkConfig where
  unc_path : String
  save_mode : Option String
deriving DecidableEq, Repr

/-- The tail of `save_report_to_network` (reports.rs:748-775): log the copy
target, fix the deadline 120 seconds from now, run the recursive copy, and
wrap its outcome. -/
def saveReportCopyPhase (env : Env) (src dst : Path)
    (entries : List (String × FsTree)) (st : St) : St × Except String Bool :=
  let st1 := st.doLog env ("Copy target resolved to " ++ renderPath dst)
  let deadline := st1.time + 120
  match copy_dir_recursive env (some deadline) src dst entries st1 with
  | (st2, some e) =>
    (st2.doLog env ("Copy failed for " ++ renderPath src ++ " -> " ++ renderPath dst ++
        ": " ++ e.msg),
      Except.error ("Copy failed: " ++ e.msg))
  | (st2, none) =>
    (st2.doLog env ("Network copy completed successfully for " ++ renderPath src ++
        " -> " ++ renderPath dst),
      Except.ok true)

/-- Model of `save_report_to_network` (reports.rs:679-775).  `report_path` is the
local report folder's path and `srcTree` its snapshot (`none` when the path
does not exist or is not a directory).  Returns the final state and the
command's `Result<bool, String>`. -/
def save_report_to_network (env : Env) (report_path : Path)
    (srcTree : Option (List (String × FsTree))) (cfg : NetworkConfig) (st : St) :
    St × Except String Bool :=
  let save_mode := cfg.save_mode.getD "unknown"
  let st := st.doLog env ("Starting network copy | report_path=\x27" ++
    renderPath report_path ++ "\x27 | unc_path=\x27" ++ cfg.unc_path ++
    "\x27 | mode=\x27" ++ save_mode ++ "\x27")
  let normalized := normalize_unc_path cfg.unc_path
  if normalized = "" then
    (st.doLog env "UNC path is empty", Except.error "UNC path is empty")
  else
    match srcTree with
    | none =>
      let msg := "Local report path not found or not a directory: " ++
        renderPath report_path
      (st.doLog env msg, Except.error msg)
    | some entries =>
      match report_path.getLast? with
      | none =>
        let msg := "Failed to derive folder name from " ++ renderPath report_path
        (st.doLog env msg, Except.error msg)
      | some folder_name =>
        let dst_root := parsePath normalized
        let st := st.doLog env ("Resolved destination root \x27" ++ normalized ++
          "\x27 (io path: \x27" ++ normalized ++ "\x27)")
        let st : St := { st with time := st.time + env.durProbe }
        match env.probeFail with
        | none =>
          let st := st.doLog env ("Verified network share is reachable: " ++ normalized)
          saveReportCopyPhase env report_path (dst_root ++ [folder_name]) entries st
        | some e =>
          let st := st.doLog env ("Warning: unable to list network share " ++
            normalized ++ ": " ++ e.msg)
          if e.kind = IoErrorKind.notFound then
            (st, Except.error ("Network share not found: " ++ normalized))
          else
            saveReportCopyPhase env report_path (dst_root ++ [folder_name]) entries st

/-- Lookup of the node at a relative path inside a snapshot tree. -/
def FsTree.find : FsTree → Path → Option FsTree
  | t, [] => some t
  | FsTree.file _, _ :: _ => none
  | FsTree.dir es, n :: rest =>
    match es.find? (fun e => e.1 == n) with
    | some e => FsTree.find e.2 rest
    | none => none
termination_by _ p => p.length

/-- Well-formed snapshot: sibling names are distinct at every level (true
of any real directory tree). -/
def wfEntries : List (String × FsTree) → Bool
  | [] => true
  | (n, FsTree.file _) :: rest => !((rest.map Prod.fst).contains n) && wfEntries rest
  | (n, FsTree.dir es) :: rest =>
    !((rest.map Prod.fst).contains n) && wfEntries es && wfEntries rest
termination_by l => sizeOf l

/-! ### Helper predicates and basic state lemmas -/

/-- Predicate: `q` is an initial segment of `p` (as component lists). -/
def isInitOf (q p : Path) : Prop := ∃ r, q ++ r = p

/-- The logger resolved a log-file path and every open of it succeeds, so
every `NetworkCopyLogger::log` call reaches the file. -/
def goodLogger (env : Env) : Prop :=
  env.hasLogFile = true ∧ ∀ k, env.logOpenFail k = false

/-- The node at relative path `rel` of the snapshot is a directory. -/
def dirAt (es : List (String × FsTree)) (rel : Path) : Prop :=
  ∃ sub, FsTree.find (FsTree.dir es) rel = some (FsTree.dir sub)

theorem isInitOf_refl (p : Path) : isInitOf p p := ⟨[], List.append_nil p⟩

theorem isInitOf_of_snoc (q : Path) (x : String) (p : Path)
    (h : isInitOf (q ++ [x]) p) : isInitOf q p := by
  obtain ⟨r, hr⟩ := h
  exact ⟨[x] ++ r, by rw [← List.append_assoc]; exact hr⟩

theorem isInitOf_cons_head (dst : Path) (m m' : String) (p rel : Path)
    (h : isInitOf (dst ++ [m]) p) (h2 : p = dst ++ m' :: rel) : m = m' := by
  obtain ⟨r, hr⟩ := h
  rw [← hr, List.append_assoc] at h2
  have h3 := List.append_cancel_left h2
  simpa using (List.cons_eq_cons.mp (by simpa using h3)).1

theorem lookup_writeFile_self (fs : DstFs) (p : Path) (b : Bytes) :
    (fs.writeFile p b).lookupFile p = some b := by
  simp [DstFs.writeFile, DstFs.lookupFile]

theorem lookup_writeFile_ne (fs : DstFs) (p q : Path) (b : Bytes) (h : q ≠ p) :
    (fs.writeFile p b).lookupFile q = fs.lookupFile q := by
  have hpq : (p == q) = false := by
    simp only [beq_eq_false_iff_ne]
    exact fun he => h he.symm
  simp [DstFs.writeFile, DstFs.lookupFile, List.find?_cons, hpq]

theorem writeFile_dirs (fs : DstFs) (p : Path) (b : Bytes) :
    (fs.writeFile p b).dirs = fs.dirs := rfl

theorem writeFile_filePaths (fs : DstFs) (p : Path) (b : Bytes) :
    (fs.writeFile p b).filePaths = p :: fs.filePaths := by
  simp [DstFs.writeFile, DstFs.filePaths]

theorem mkDirAll_files (fs : DstFs) (p : Path) : (fs.mkDirAll p).files = fs.files := rfl

theorem mkDirAll_filePaths (fs : DstFs) (p : Path) :
    (fs.mkDirAll p).filePaths = fs.filePaths := rfl

theorem mem_mkDirAll_dirs (fs : DstFs) (p q : Path) :
    q ∈ (fs.mkDirAll p).dirs ↔ (isInitOf q p ∧ q ≠ []) ∨ q ∈ fs.dirs := by
  simp only [DstFs.mkDirAll, List.mem_append, List.mem_filter, List.mem_inits]
  constructor
  · rintro (⟨hq, hne⟩ | hq)
    · obtain ⟨r, hr⟩ := hq
      exact Or.inl ⟨⟨r, hr⟩, by simpa using hne⟩
    · exact Or.inr hq
  · rintro (⟨⟨r, hr⟩, hne⟩ | hq)
    · exact Or.inl ⟨⟨r, hr⟩, by simpa using hne⟩
    · exact Or.inr hq

theorem mem_mkDirAll_self (fs : DstFs) (p : Path) (h : p ≠ []) :
    p ∈ (fs.mkDirAll p).dirs :=
  (mem_mkDirAll_dirs fs p p).mpr (Or.inl ⟨isInitOf_refl p, h⟩)

theorem existsPath_iff (fs : DstFs) (p : Path) :
    fs.existsPath p = true ↔ p ∈ fs.dirs ∨ p ∈ fs.filePaths := by
  simp [DstFs.existsPath]

theorem doLog_fs (env : Env) (st : St) (m : String) : (st.doLog env m).fs = st.fs := by
  unfold St.doLog; split <;> rfl

theorem doLog_time (env : Env) (st : St) (m : String) : (st.doLog env m).time = st.time := by
  unfold St.doLog; split <;> rfl

theorem doLog_log (env : Env) (st : St) (m : String) :
    ∃ t, (st.doLog env m).log = st.log ++ t := by
  unfold St.doLog; split
  · exact ⟨[(st.time, m)], rfl⟩
  · exact ⟨[], by simp⟩

theorem doLog_log_good (env : Env) (st : St) (m : String) (h : goodLogger env) :
    (st.doLog env m).log = st.log ++ [(st.time, m)] := by
  unfold St.doLog
  rw [h.1, h.2 st.logCalls]
  simp

/-! ### `copyDirPrologue` characterization -/

theorem copyDirPrologue_timeout (env : Env) (d : Option Nat) (src dst : Path) (st : St)
    (h : deadlineExceeded d st.time = true) :
    copyDirPrologue env d src dst st =
      (st, some ⟨IoErrorKind.timedOut,
        "Copy timed out before processing " ++ renderPath src⟩) := by
  unfold copyDirPrologue
  rw [if_pos h]

theorem createDirStep_fail (env : Env) (dst : Path) (st : St)
    (hex : st.fs.existsPath dst = false) (e0 : IoError)
    (hc : env.createDirFail dst = some e0) :
    createDirStep env dst st =
      (st, some ⟨e0.kind,
        "Failed to create directory " ++ renderPath dst ++ ": " ++ e0.msg⟩) := by
  unfold createDirStep
  rw [if_neg (by simp [hex]), hc]

theorem copyDirPrologue_mkdir_fail (env : Env) (d : Option Nat) (src dst : Path) (st : St)
    (hd : deadlineExceeded d st.time = false) (hex : st.fs.existsPath dst = false)
    (e0 : IoError) (hc : env.createDirFail dst = some e0) :
    copyDirPrologue env d src dst st =
      (st, some ⟨e0.kind,
        "Failed to create directory " ++ renderPath dst ++ ": " ++ e0.msg⟩) := by
  unfold copyDirPrologue
  rw [if_neg (by simp [hd]), createDirStep_fail env dst st hex e0 hc]

theorem createDirStep_files (env : Env) (dst : Path) (st : St) :
    (createDirStep env dst st).1.fs.files = st.fs.files := by
  unfold createDirStep
  split
  · rfl
  · split
    · rfl
    · rw [doLog_fs]
      rfl

theorem createDirStep_dirs_mono (env : Env) (dst : Path) (st : St) (p : Path)
    (hp : p ∈ st.fs.dirs) : p ∈ (createDirStep env dst st).1.fs.dirs := by
  unfold createDirStep
  split
  · exact hp
  · split
    · exact hp
    · rw [doLog_fs]
      exact (mem_mkDirAll_dirs st.fs dst p).mpr (Or.inr hp)

theorem createDirStep_new_dirs (env : Env) (dst : Path) (st : St) (p : Path)
    (hp : p ∈ (createDirStep env dst st).1.fs.dirs) :
    p ∈ st.fs.dirs ∨ isInitOf p dst := by
  revert hp
  unfold createDirStep
  split
  · exact Or.inl
  · split
    · exact Or.inl
    · rw [doLog_fs]
      intro hp
      rcases (mem_mkDirAll_dirs st.fs dst p).mp hp with ⟨hi, _⟩ | hm
      · exact Or.inr hi
      · exact Or.inl hm

theorem createDirStep_created_logged (env : Env) (dst : Path) (st : St)
    (hgood : goodLogger env) (p : Path)
    (hp : p ∈ (createDirStep env dst st).1.fs.dirs) (hnp : p ∉ st.fs.dirs) :
    ∃ t, (t, "Created directory " ++ renderPath dst) ∈ (createDirStep env dst st).1.log := by
  revert hp
  unfold createDirStep
  split
  · exact fun hp => absurd hp hnp
  · split
    · exact fun hp => absurd hp hnp
    · intro _
      rw [doLog_log_good env _ _ hgood]
      exact ⟨_, List.mem_append_right _ (List.mem_singleton.mpr rfl)⟩

theorem createDirStep_log_mono (env : Env) (dst : Path) (st : St) :
    ∃ t, (createDirStep env dst st).1.log = st.log ++ t := by
  unfold createDirStep
  split
  · exact ⟨[], by simp⟩
  · split
    · exact ⟨[], by simp⟩
    · exact doLog_log env _ _

theorem createDirStep_ok_dst_dir (env : Env) (dst : Path) (st : St) (st1 : St)
    (hres : createDirStep env dst st = (st1, none)) (hne : dst ≠ [])
    (hsane : st.fs.existsPath dst = true → dst ∈ st.fs.dirs) :
    dst ∈ st1.fs.dirs := by
  revert hres
  unfold createDirStep
  split
  · rename_i hex
    intro hres
    obtain rfl : st = st1 := congrArg Prod.fst hres
    exact hsane hex
  · split
    · intro hres; simp at hres
    · intro hres
      have h1 := congrArg Prod.fst hres
      simp only at h1
      rw [← h1, doLog_fs]
      exact mem_mkDirAll_self st.fs dst hne

theorem createDirStep_err_state (env : Env) (dst : Path) (st st1 : St) (e : IoError)
    (hres : createDirStep env dst st = (st1, some e)) : st1 = st := by
  revert hres
  unfold createDirStep
  split
  · intro hres; simp at hres
  · split
    · intro hres
      exact (congrArg Prod.fst hres).symm
    · intro hres; simp at hres

theorem copyDirPrologue_files (env : Env) (d : Option Nat) (src dst : Path) (st : St) :
    (copyDirPrologue env d src dst st).1.fs.files = st.fs.files := by
  unfold copyDirPrologue
  split
  · rfl
  · have hf := createDirStep_files env dst st
    cases hcs : createDirStep env dst st with
    | mk st1 r1 =>
      rw [hcs] at hf
      simp only at hf
      cases r1 with
      | some e => exact hf
      | none =>
        cases env.readDirFail src with
        | some e => exact hf
        | none => exact hf

theorem copyDirPrologue_dirs_mono (env : Env) (d : Option Nat) (src dst : Path) (st : St)
    (p : Path) (hp : p ∈ st.fs.dirs) : p ∈ (copyDirPrologue env d src dst st).1.fs.dirs := by
  unfold copyDirPrologue
  split
  · exact hp
  · have hm := createDirStep_dirs_mono env dst st p hp
    cases hcs : createDirStep env dst st with
    | mk st1 r1 =>
      rw [hcs] at hm
      simp only at hm
      cases r1 with
      | some e => exact hm
      | none =>
        cases env.readDirFail src with
        | some e => exact hm
        | none => exact hm

theorem copyDirPrologue_new_dirs (env : Env) (d : Option Nat) (src dst : Path) (st : St)
    (p : Path) (hp : p ∈ (copyDirPrologue env d src dst st).1.fs.dirs) :
    p ∈ st.fs.dirs ∨ isInitOf p dst := by
  revert hp
  unfold copyDirPrologue
  split
  · exact Or.inl
  · have hn := createDirStep_new_dirs env dst st p
    cases hcs : createDirStep env dst st with
    | mk st1 r1 =>
      rw [hcs] at hn
      simp only at hn
      cases r1 with
      | some e => exact hn
      | none =>
        cases env.readDirFail src with
        | some e => exact hn
        | none => exact hn

theorem copyDirPrologue_created_logged (env : Env) (d : Option Nat) (src dst : Path)
    (st : St) (hgood : goodLogger env) (p : Path)
    (hp : p ∈ (copyDirPrologue env d src dst st).1.fs.dirs) (hnp : p ∉ st.fs.dirs) :
    ∃ t, (t, "Created directory " ++ renderPath dst) ∈
      (copyDirPrologue env d src dst st).1.log := by
  revert hp
  unfold copyDirPrologue
  split
  · exact fun hp => absurd hp hnp
  · have hl := createDirStep_created_logged env dst st hgood p
    cases hcs : createDirStep env dst st with
    | mk st1 r1 =>
      rw [hcs] at hl
      simp only at hl
      cases r1 with
      | some e => exact fun hp => hl hp hnp
      | none =>
        cases env.readDirFail src with
        | some e => exact fun hp => hl hp hnp
        | none => exact fun hp => hl hp hnp

theorem copyDirPrologue_log_mono (env : Env) (d : Option Nat) (src dst : Path) (st : St) :
    ∃ t, (copyDirPrologue env d src dst st).1.log = st.log ++ t := by
  unfold copyDirPrologue
  split
  · exact ⟨[], by simp⟩
  · have hl := createDirStep_log_mono env dst st
    cases hcs : createDirStep env dst st with
    | mk st1 r1 =>
      rw [hcs] at hl
      simp only at hl
      cases r1 with
      | some e => exact hl
      | none =>
        cases env.readDirFail src with
        | some e => exact hl
        | none => exact hl

theorem copyDirPrologue_ok_dst_dir (env : Env) (d : Option Nat) (src dst : Path)
    (st st1 : St) (hres : copyDirPrologue env d src dst st = (st1, none)) (hne : dst ≠ [])
    (hsane : st.fs.existsPath dst = true → dst ∈ st.fs.dirs) :
    dst ∈ st1.fs.dirs := by
  revert hres
  unfold copyDirPrologue
  split
  · intro hres; simp at hres
  · cases hcs : createDirStep env dst st with
    | mk st2 r2 =>
      cases r2 with
      | some e => intro hres; simp at hres
      | none =>
        have hd : dst ∈ st2.fs.dirs := createDirStep_ok_dst_dir env dst st st2 hcs hne hsane
        cases env.readDirFail src with
        | some e => intro hres; simp at hres
        | none =>
          intro hres
          have h1 := congrArg Prod.fst hres
          simp only at h1
          rw [← h1]
          exact hd

/-- The body of the entry loop for one entry (reports.rs:636-659): log and
recurse for a subdirectory, or log and `fs::copy` for a file. -/
def stepEntry (env : Env) (d : Option Nat) (src dst : Path) (name : String) :
    FsTree → St → St × Option IoError
  | FsTree.dir subEntries, st =>
    match copyDirPrologue env d (src ++ [name]) (dst ++ [name])
        (st.doLog env ("Descending into " ++ renderPath (src ++ [name]))) with
    | (st2, some e) => (st2, some e)
    | (st2, none) =>
      copyEntries env d (src ++ [name]) (dst ++ [name]) subEntries st2
  | FsTree.file content, st =>
    copyFileStep env (src ++ [name]) (dst ++ [name]) content st

theorem copyEntries_nil (env : Env) (d : Option Nat) (src dst : Path) (st : St) :
    copyEntries env d src dst [] st = (st, none) := by
  simp [copyEntries]

theorem copyEntries_cons_iter_fail (env : Env) (d : Option Nat) (src dst : Path)
    (name : String) (sub : FsTree) (rest : List (String × FsTree)) (st : St) (e : IoError)
    (he : env.entryFail src name = some e) :
    copyEntries env d src dst ((name, sub) :: rest) st =
      (st, some ⟨e.kind,
        "Failed to iterate directory " ++ renderPath src ++ ": " ++ e.msg⟩) := by
  cases sub <;> simp [copyEntries, he]

theorem copyEntries_cons_ok (env : Env) (d : Option Nat) (src dst : Path)
    (name : String) (sub : FsTree) (rest : List (String × FsTree)) (st : St)
    (he : env.entryFail src name = none) :
    copyEntries env d src dst ((name, sub) :: rest) st =
      match stepEntry env d src dst name sub st with
      | (st2, some e) => (st2, some e)
      | (st2, none) =>
        if deadlineExceeded d st2.time then
          (st2, some ⟨IoErrorKind.timedOut,
            "Copy timed out while processing " ++ renderPath (src ++ [name])⟩)
        else copyEntries env d src dst rest st2 := by
  cases sub <;> simp [copyEntries, stepEntry, he]


/-! ### `copyFileStep` characterization -/

theorem copyFileStep_fail (env : Env) (sf df : Path) (c : Bytes) (st : St) (e0 : IoError)
    (hc : env.copyFail sf df = some e0) :
    copyFileStep env sf df c st =
      (st.doLog env ("Copying file " ++ renderPath sf ++ " -> " ++ renderPath df),
        some ⟨e0.kind,
          "Failed to copy " ++ renderPath sf ++ " -> " ++ renderPath df ++
            ": " ++ e0.msg⟩) := by
  unfold copyFileStep
  rw [hc]

theorem copyFileStep_ok_eq (env : Env) (sf df : Path) (c : Bytes) (st : St)
    (hc : env.copyFail sf df = none) :
    copyFileStep env sf df c st =
      (⟨(st.doLog env ("Copying file " ++ renderPath sf ++ " -> " ++
            renderPath df)).fs.writeFile df c,
        (st.doLog env ("Copying file " ++ renderPath sf ++ " -> " ++
            renderPath df)).log,
        (st.doLog env ("Copying file " ++ renderPath sf ++ " -> " ++
            renderPath df)).logCalls,
        st.time + env.durCopy sf⟩, none) := by
  unfold copyFileStep
  rw [hc]

theorem copyFileStep_dirs (env : Env) (sf df : Path) (c : Bytes) (st : St) :
    (copyFileStep env sf df c st).1.fs.dirs = st.fs.dirs := by
  unfold copyFileStep
  cases env.copyFail sf df with
  | some e => rw [doLog_fs]
  | none =>
    show ((st.doLog env _).fs.writeFile df c).dirs = st.fs.dirs
    rw [writeFile_dirs, doLog_fs]

theorem copyFileStep_log_mono (env : Env) (sf df : Path) (c : Bytes) (st : St) :
    ∃ t, (copyFileStep env sf df c st).1.log = st.log ++ t := by
  unfold copyFileStep
  cases env.copyFail sf df with
  | some e => exact doLog_log env st _
  | none => exact doLog_log env st _

theorem copyFileStep_log_good (env : Env) (sf df : Path) (c : Bytes) (st : St)
    (hgood : goodLogger env) :
    (copyFileStep env sf df c st).1.log =
      st.log ++ [(st.time, "Copying file " ++ renderPath sf ++ " -> " ++ renderPath df)] := by
  unfold copyFileStep
  cases env.copyFail sf df with
  | some e => exact doLog_log_good env st _ hgood
  | none => exact doLog_log_good env st _ hgood

theorem copyFileStep_lookup_ne (env : Env) (sf df : Path) (c : Bytes) (st : St)
    (q : Path) (hq : q ≠ df) :
    (copyFileStep env sf df c st).1.fs.lookupFile q = st.fs.lookupFile q := by
  unfold copyFileStep
  cases env.copyFail sf df with
  | some e => rw [doLog_fs]
  | none =>
    show ((st.doLog env _).fs.writeFile df c).lookupFile q = st.fs.lookupFile q
    rw [lookup_writeFile_ne _ _ _ _ hq, doLog_fs]

theorem copyFileStep_ok_lookup_self (env : Env) (sf df : Path) (c : Bytes) (st : St)
    (hc : env.copyFail sf df = none) :
    (copyFileStep env sf df c st).1.fs.lookupFile df = some c := by
  unfold copyFileStep
  rw [hc]
  exact lookup_writeFile_self _ df c

theorem copyFileStep_new_files (env : Env) (sf df : Path) (c : Bytes) (st : St)
    (p : Path) (hp : p ∈ (copyFileStep env sf df c st).1.fs.filePaths) :
    p ∈ st.fs.filePaths ∨ p = df := by
  revert hp
  unfold copyFileStep
  cases env.copyFail sf df with
  | some e => rw [doLog_fs]; exact Or.inl
  | none =>
    show p ∈ ((st.doLog env _).fs.writeFile df c).filePaths → _
    rw [writeFile_filePaths, doLog_fs]
    intro hp
    rcases List.mem_cons.mp hp with hp | hp
    · exact Or.inr hp
    · exact Or.inl hp

theorem copyFileStep_err_state (env : Env) (sf df : Path) (c : Bytes) (st st2 : St)
    (e : IoError) (hres : copyFileStep env sf df c st = (st2, some e)) :
    st2.fs = st.fs := by
  revert hres
  unfold copyFileStep
  cases env.copyFail sf df with
  | some e0 =>
    intro hres
    have h1 := congrArg Prod.fst hres
    simp only at h1
    rw [← h1, doLog_fs]
  | none => intro hres; simp at hres

/-! ### Induction lemmas over the entry walk -/

theorem sizeOf_list_pos (es : List (String × FsTree)) : 1 ≤ sizeOf es := by
  cases es with
  | nil => simp
  | cons a l =>
    simp only [List.cons.sizeOf_spec]
    omega

theorem sizeOf_rest_lt (name : String) (sub : FsTree) (rest : List (String × FsTree)) :
    sizeOf rest < sizeOf ((name, sub) :: rest) := by
  simp only [List.cons.sizeOf_spec, Prod.mk.sizeOf_spec]
  omega

theorem sizeOf_sub_lt (name : String) (subEntries rest : List (String × FsTree)) :
    sizeOf subEntries < sizeOf ((name, FsTree.dir subEntries) :: rest) := by
  simp only [List.cons.sizeOf_spec, Prod.mk.sizeOf_spec, FsTree.dir.sizeOf_spec]
  omega

theorem copyEntries_dirs_mono_aux (n : Nat) :
    ∀ (es : List (String × FsTree)), sizeOf es ≤ n →
    ∀ (env : Env) (d : Option Nat) (src dst : Path) (st : St) (p : Path),
      p ∈ st.fs.dirs → p ∈ (copyEntries env d src dst es st).1.fs.dirs := by
  induction n with
  | zero =>
    intro es hes
    have := sizeOf_list_pos es
    omega
  | succ n ih =>
    intro es hes env d src dst st p hp
    match es with
    | [] => rw [copyEntries_nil]; exact hp
    | (name, sub) :: rest =>
      cases he : env.entryFail src name with
      | some e =>
        rw [copyEntries_cons_iter_fail env d src dst name sub rest st e he]
        exact hp
      | none =>
        rw [copyEntries_cons_ok env d src dst name sub rest st he]
        have hstep : p ∈ (stepEntry env d src dst name sub st).1.fs.dirs := by
          cases sub with
          | dir subEntries =>
            simp only [stepEntry]
            have hp1 : p ∈ (st.doLog env
                ("Descending into " ++ renderPath (src ++ [name]))).fs.dirs := by
              rw [doLog_fs]; exact hp
            have hm := copyDirPrologue_dirs_mono env d (src ++ [name]) (dst ++ [name]) _ p hp1
            cases hpr : copyDirPrologue env d (src ++ [name]) (dst ++ [name])
                (st.doLog env ("Descending into " ++ renderPath (src ++ [name]))) with
            | mk st2 r2 =>
              rw [hpr] at hm
              simp only at hm
              cases r2 with
              | some e2 => exact hm
              | none =>
                have hsz : sizeOf subEntries ≤ n := by
                  have := sizeOf_sub_lt name subEntries rest
                  omega
                exact ih subEntries hsz env d (src ++ [name]) (dst ++ [name]) st2 p hm
          | file content =>
            simp only [stepEntry]
            rw [copyFileStep_dirs]
            exact hp
        cases hse : stepEntry env d src dst name sub st with
        | mk st2 r2 =>
          rw [hse] at hstep
          simp only at hstep
          cases r2 with
          | some e2 => exact hstep
          | none =>
            dsimp only
            by_cases hdl : deadlineExceeded d st2.time = true
            · rw [if_pos hdl]
              exact hstep
            · rw [if_neg hdl]
              have hsz : sizeOf rest ≤ n := by
                have := sizeOf_rest_lt name sub rest
                omega
              exact ih rest hsz env d src dst st2 p hstep

theorem copyEntries_dirs_mono (env : Env) (d : Option Nat) (src dst : Path)
    (es : List (String × FsTree)) (st : St) (p : Path) (hp : p ∈ st.fs.dirs) :
    p ∈ (copyEntries env d src dst es st).1.fs.dirs :=
  copyEntries_dirs_mono_aux (sizeOf es) es (Nat.le_refl _) env d src dst st p hp

theorem copyEntries_log_mono_aux (n : Nat) :
    ∀ (es : List (String × FsTree)), sizeOf es ≤ n →
    ∀ (env : Env) (d : Option Nat) (src dst : Path) (st : St),
      ∃ t, (copyEntries env d src dst es st).1.log = st.log ++ t := by
  induction n with
  | zero =>
    intro es hes
    have := sizeOf_list_pos es
    omega
  | succ n ih =>
    intro es hes env d src dst st
    match es with
    | [] => rw [copyEntries_nil]; exact ⟨[], by simp⟩
    | (name, sub) :: rest =>
      cases he : env.entryFail src name with
      | some e =>
        rw [copyEntries_cons_iter_fail env d src dst name sub rest st e he]
        exact ⟨[], by simp⟩
      | none =>
        rw [copyEntries_cons_ok env d src dst name sub rest st he]
        have hstep : ∃ t, (stepEntry env d src dst name sub st).1.log = st.log ++ t := by
          cases sub with
          | dir subEntries =>
            simp only [stepEntry]
            obtain ⟨t1, ht1⟩ := doLog_log env st
              ("Descending into " ++ renderPath (src ++ [name]))
            obtain ⟨t2, ht2⟩ := copyDirPrologue_log_mono env d (src ++ [name])
              (dst ++ [name])
              (st.doLog env ("Descending into " ++ renderPath (src ++ [name])))
            cases hpr : copyDirPrologue env d (src ++ [name]) (dst ++ [name])
                (st.doLog env ("Descending into " ++ renderPath (src ++ [name]))) with
            | mk st2 r2 =>
              rw [hpr] at ht2
              simp only at ht2
              cases r2 with
              | some e2 => exact ⟨t1 ++ t2, by rw [ht2, ht1, List.append_assoc]⟩
              | none =>
                have hsz : sizeOf subEntries ≤ n := by
                  have := sizeOf_sub_lt name subEntries rest
                  omega
                obtain ⟨t3, ht3⟩ := ih subEntries hsz env d (src ++ [name])
                  (dst ++ [name]) st2
                exact ⟨t1 ++ (t2 ++ t3), by
                  rw [ht3, ht2, ht1, List.append_assoc, List.append_assoc]⟩
          | file content =>
            simp only [stepEntry]
            exact copyFileStep_log_mono env (src ++ [name]) (dst ++ [name]) content st
        cases hse : stepEntry env d src dst name sub st with
        | mk st2 r2 =>
          rw [hse] at hstep
          simp only at hstep
          obtain ⟨t2, ht2⟩ := hstep
          cases r2 with
          | some e2 => exact ⟨t2, ht2⟩
          | none =>
            dsimp only
            by_cases hdl : deadlineExceeded d st2.time = true
            · rw [if_pos hdl]
              exact ⟨t2, ht2⟩
            · rw [if_neg hdl]
              have hsz : sizeOf rest ≤ n := by
                have := sizeOf_rest_lt name sub rest
                omega
              obtain ⟨t3, ht3⟩ := ih rest hsz env d src dst st2
              exact ⟨t2 ++ t3, by rw [ht3, ht2, List.append_assoc]⟩

theorem copyEntries_log_mono (env : Env) (d : Option Nat) (src dst : Path)
    (es : List (String × FsTree)) (st : St) :
    ∃ t, (copyEntries env d src dst es st).1.log = st.log ++ t :=
  copyEntries_log_mono_aux (sizeOf es) es (Nat.le_refl _) env d src dst st


theorem DstFs_lookup_congr (fs1 fs2 : DstFs) (h : fs1.files = fs2.files) (q : Path) :
    fs1.lookupFile q = fs2.lookupFile q := by
  unfold DstFs.lookupFile
  rw [h]

theorem DstFs_filePaths_congr (fs1 fs2 : DstFs) (h : fs1.files = fs2.files) :
    fs1.filePaths = fs2.filePaths := by
  unfold DstFs.filePaths
  rw [h]

theorem copyEntries_files_frame_aux (n : Nat) :
    ∀ (es : List (String × FsTree)), sizeOf es ≤ n →
    ∀ (env : Env) (d : Option Nat) (src dst : Path) (st : St) (q : Path),
      (∀ m, m ∈ es.map Prod.fst → ¬ isInitOf (dst ++ [m]) q) →
      (copyEntries env d src dst es st).1.fs.lookupFile q = st.fs.lookupFile q := by
  induction n with
  | zero =>
    intro es hes
    have := sizeOf_list_pos es
    omega
  | succ n ih =>
    intro es hes env d src dst st q hq
    match es with
    | [] => rw [copyEntries_nil]
    | (name, sub) :: rest =>
      cases he : env.entryFail src name with
      | some e =>
        rw [copyEntries_cons_iter_fail env d src dst name sub rest st e he]
      | none =>
        rw [copyEntries_cons_ok env d src dst name sub rest st he]
        have hqname : ¬ isInitOf (dst ++ [name]) q := hq name (by simp)
        have hstep : (stepEntry env d src dst name sub st).1.fs.lookupFile q =
            st.fs.lookupFile q := by
          cases sub with
          | dir subEntries =>
            simp only [stepEntry]
            have hfiles := copyDirPrologue_files env d (src ++ [name]) (dst ++ [name])
              (st.doLog env ("Descending into " ++ renderPath (src ++ [name])))
            cases hpr : copyDirPrologue env d (src ++ [name]) (dst ++ [name])
                (st.doLog env ("Descending into " ++ renderPath (src ++ [name]))) with
            | mk st2 r2 =>
              rw [hpr] at hfiles
              simp only at hfiles
              rw [doLog_fs] at hfiles
              have hl2 : st2.fs.lookupFile q = st.fs.lookupFile q :=
                DstFs_lookup_congr _ _ hfiles q
              cases r2 with
              | some e2 => exact hl2
              | none =>
                have hsz : sizeOf subEntries ≤ n := by
                  have := sizeOf_sub_lt name subEntries rest
                  omega
                have hsub : ∀ m, m ∈ subEntries.map Prod.fst →
                    ¬ isInitOf (dst ++ [name] ++ [m]) q := by
                  intro m _ hin
                  exact hqname (isInitOf_of_snoc _ m q hin)
                rw [ih subEntries hsz env d (src ++ [name]) (dst ++ [name]) st2 q hsub]
                exact hl2
          | file content =>
            simp only [stepEntry]
            refine copyFileStep_lookup_ne env (src ++ [name]) (dst ++ [name]) content st q ?_
            intro heq
            exact hqname (heq ▸ isInitOf_refl (dst ++ [name]))
        cases hse : stepEntry env d src dst name sub st with
        | mk st2 r2 =>
          rw [hse] at hstep
          simp only at hstep
          cases r2 with
          | some e2 => exact hstep
          | none =>
            dsimp only
            by_cases hdl : deadlineExceeded d st2.time = true
            · rw [if_pos hdl]
              exact hstep
            · rw [if_neg hdl]
              have hsz : sizeOf rest ≤ n := by
                have := sizeOf_rest_lt name sub rest
                omega
              have hrest : ∀ m, m ∈ rest.map Prod.fst → ¬ isInitOf (dst ++ [m]) q := by
                intro m hm
                exact hq m (by simp; exact Or.inr (by simpa using hm))
              rw [ih rest hsz env d src dst st2 q hrest]
              exact hstep

theorem copyEntries_files_frame (env : Env) (d : Option Nat) (src dst : Path)
    (es : List (String × FsTree)) (st : St) (q : Path)
    (hq : ∀ m, m ∈ es.map Prod.fst → ¬ isInitOf (dst ++ [m]) q) :
    (copyEntries env d src dst es st).1.fs.lookupFile q = st.fs.lookupFile q :=
  copyEntries_files_frame_aux (sizeOf es) es (Nat.le_refl _) env d src dst st q hq

theorem copyEntries_new_files_aux (n : Nat) :
    ∀ (es : List (String × FsTree)), sizeOf es ≤ n →
    ∀ (env : Env) (d : Option Nat) (src dst : Path) (st : St) (p : Path),
      p ∈ (copyEntries env d src dst es st).1.fs.filePaths →
      p ∈ st.fs.filePaths ∨ ∃ m, m ∈ es.map Prod.fst ∧ isInitOf (dst ++ [m]) p := by
  induction n with
  | zero =>
    intro es hes
    have := sizeOf_list_pos es
    omega
  | succ n ih =>
    intro es hes env d src dst st p hp
    match es with
    | [] =>
      rw [copyEntries_nil] at hp
      exact Or.inl hp
    | (name, sub) :: rest =>
      cases he : env.entryFail src name with
      | some e =>
        rw [copyEntries_cons_iter_fail env d src dst name sub rest st e he] at hp
        exact Or.inl hp
      | none =>
        rw [copyEntries_cons_ok env d src dst name sub rest st he] at hp
        have hstep : ∀ (st' : St), p ∈ (stepEntry env d src dst name sub st).1.fs.filePaths →
            p ∈ st.fs.filePaths ∨ isInitOf (dst ++ [name]) p := by
          intro _ hps
          cases sub with
          | dir subEntries =>
            simp only [stepEntry] at hps
            have hfiles := copyDirPrologue_files env d (src ++ [name]) (dst ++ [name])
              (st.doLog env ("Descending into " ++ renderPath (src ++ [name])))
            cases hpr : copyDirPrologue env d (src ++ [name]) (dst ++ [name])
                (st.doLog env ("Descending into " ++ renderPath (src ++ [name]))) with
            | mk st2 r2 =>
              rw [hpr] at hfiles hps
              simp only at hfiles hps
              rw [doLog_fs] at hfiles
              have hfp2 : st2.fs.filePaths = st.fs.filePaths :=
                DstFs_filePaths_congr _ _ hfiles
              cases r2 with
              | some e2 =>
                rw [hfp2] at hps
                exact Or.inl hps
              | none =>
                have hsz : sizeOf subEntries ≤ n := by
                  have := sizeOf_sub_lt name subEntries rest
                  omega
                rcases ih subEntries hsz env d (src ++ [name]) (dst ++ [name]) st2 p hps with
                  hin | ⟨m, _, hm2⟩
                · rw [hfp2] at hin
                  exact Or.inl hin
                · exact Or.inr (isInitOf_of_snoc _ m p hm2)
          | file content =>
            simp only [stepEntry] at hps
            rcases copyFileStep_new_files env (src ++ [name]) (dst ++ [name]) content st
                p hps with hin | hpe
            · exact Or.inl hin
            · exact Or.inr (hpe ▸ isInitOf_refl (dst ++ [name]))
        cases hse : stepEntry env d src dst name sub st with
        | mk st2 r2 =>
          rw [hse] at hp hstep
          simp only at hp hstep
          cases r2 with
          | some e2 =>
            rcases hstep st2 hp with hin | hini
            · exact Or.inl hin
            · exact Or.inr ⟨name, by simp, hini⟩
          | none =>
            dsimp only at hp
            by_cases hdl : deadlineExceeded d st2.time = true
            · rw [if_pos hdl] at hp
              rcases hstep st2 hp with hin | hini
              · exact Or.inl hin
              · exact Or.inr ⟨name, by simp, hini⟩
            · rw [if_neg hdl] at hp
              have hsz : sizeOf rest ≤ n := by
                have := sizeOf_rest_lt name sub rest
                omega
              rcases ih rest hsz env d src dst st2 p hp with hin | ⟨m, hm1, hm2⟩
              · rcases hstep st2 hin with hin2 | hini
                · exact Or.inl hin2
                · exact Or.inr ⟨name, by simp, hini⟩
              · exact Or.inr ⟨m, by simp; exact Or.inr (by simpa using hm1), hm2⟩

theorem copyEntries_new_files (env : Env) (d : Option Nat) (src dst : Path)
    (es : List (String × FsTree)) (st : St) (p : Path)
    (hp : p ∈ (copyEntries env d src dst es st).1.fs.filePaths) :
    p ∈ st.fs.filePaths ∨ ∃ m, m ∈ es.map Prod.fst ∧ isInitOf (dst ++ [m]) p :=
  copyEntries_new_files_aux (sizeOf es) es (Nat.le_refl _) env d src dst st p hp


/-! ### Snapshot-tree lemmas for the mirror property -/

theorem isInitOf_length (q p : Path) (h : isInitOf q p) : q.length ≤ p.length := by
  obtain ⟨r, hr⟩ := h
  rw [← hr]
  simp

theorem not_isInitOf_snoc_self (dst : Path) (m : String) : ¬ isInitOf (dst ++ [m]) dst := by
  intro h
  have := isInitOf_length _ _ h
  simp at this

theorem isInitOf_snoc_cons (dst : Path) (m m' : String) (rel : Path)
    (h : isInitOf (dst ++ [m]) (dst ++ m' :: rel)) : m = m' :=
  isInitOf_cons_head dst m m' _ rel h rfl

theorem append_snoc_cons (dst : Path) (name : String) (rel : Path) :
    dst ++ [name] ++ rel = dst ++ name :: rel := by
  simp

theorem contains_false_not_mem (l : List String) (a : String)
    (h : l.contains a = false) : a ∉ l := by
  intro hm
  have := List.elem_eq_true_of_mem hm
  rw [show l.elem a = l.contains a from rfl, h] at this
  exact Bool.false_ne_true this

theorem find_nil_path (t : FsTree) : FsTree.find t [] = some t := by
  cases t <;> simp [FsTree.find]

theorem find_cons_head (name : String) (sub0 : FsTree) (rest : List (String × FsTree))
    (m0 : String) (rel : Path) (hb : (name == m0) = true) :
    FsTree.find (FsTree.dir ((name, sub0) :: rest)) (m0 :: rel) = FsTree.find sub0 rel := by
  simp only [FsTree.find, List.find?]
  simp [hb]

theorem find_cons_rest (name : String) (sub0 : FsTree) (rest : List (String × FsTree))
    (m0 : String) (rel : Path) (hb : (name == m0) = false) :
    FsTree.find (FsTree.dir ((name, sub0) :: rest)) (m0 :: rel) =
      FsTree.find (FsTree.dir rest) (m0 :: rel) := by
  simp only [FsTree.find, List.find?]
  simp [hb]

theorem dirAt_nil (es : List (String × FsTree)) : dirAt es [] :=
  ⟨es, find_nil_path _⟩

theorem dirAt_head_sub (name : String) (subEntries rest : List (String × FsTree))
    (rel : Path) (h : dirAt subEntries rel) :
    dirAt ((name, FsTree.dir subEntries) :: rest) (name :: rel) := by
  obtain ⟨s, hs⟩ := h
  exact ⟨s, by rw [find_cons_head name _ rest name rel (by simp)]; exact hs⟩

theorem dirAt_rest (name : String) (sub0 : FsTree) (rest : List (String × FsTree))
    (m0 : String) (rel : Path) (hb : (name == m0) = false)
    (h : dirAt rest (m0 :: rel)) : dirAt ((name, sub0) :: rest) (m0 :: rel) := by
  obtain ⟨s, hs⟩ := h
  exact ⟨s, by rw [find_cons_rest name sub0 rest m0 rel hb]; exact hs⟩

theorem dirAt_rest_key (rest : List (String × FsTree)) (m0 : String) (rel : Path)
    (h : dirAt rest (m0 :: rel)) : m0 ∈ rest.map Prod.fst := by
  obtain ⟨s, hs⟩ := h
  simp only [FsTree.find] at hs
  cases hf : rest.find? (fun e => e.1 == m0) with
  | none => rw [hf] at hs; simp at hs
  | some e =>
    have hm := List.mem_of_find?_eq_some hf
    have hp := List.find?_some hf
    have he : e.1 = m0 := by simpa using hp
    exact he ▸ List.mem_map_of_mem Prod.fst hm


/-! ### The mirror property of a successful walk -/

theorem copyEntries_mirror_aux (n : Nat) :
    ∀ (es : List (String × FsTree)), sizeOf es ≤ n →
    ∀ (env : Env) (d : Option Nat) (src dst : Path) (st st' : St),
      wfEntries es = true →
      copyEntries env d src dst es st = (st', none) →
      dst ∈ st.fs.dirs →
      (∀ rel, dirAt es rel → (dst ++ rel) ∉ st.fs.filePaths) →
      ∀ rel sub, FsTree.find (FsTree.dir es) rel = some sub →
        (∀ subs, sub = FsTree.dir subs → (dst ++ rel) ∈ st'.fs.dirs) ∧
        (∀ b, sub = FsTree.file b → st'.fs.lookupFile (dst ++ rel) = some b) := by
  induction n with
  | zero =>
    intro es hes
    have := sizeOf_list_pos es
    omega
  | succ n ih =>
    intro es hes env d src dst st st' hwf hres hdst hclean
    match es with
    | [] =>
      rw [copyEntries_nil] at hres
      have hst : st = st' := congrArg Prod.fst hres
      subst hst
      intro rel sub hfind
      cases rel with
      | nil =>
        rw [find_nil_path] at hfind
        have hsub : sub = FsTree.dir [] := by
          injection hfind with h
          exact h.symm
        subst hsub
        constructor
        · intro subs _
          simpa using hdst
        · intro b hb
          exact absurd hb (by intro h; cases h)
      | cons m0 rel' =>
        simp [FsTree.find] at hfind
    | (name, sub0) :: rest =>
      cases he : env.entryFail src name with
      | some e =>
        rw [copyEntries_cons_iter_fail env d src dst name sub0 rest st e he] at hres
        simp at hres
      | none =>
        rw [copyEntries_cons_ok env d src dst name sub0 rest st he] at hres
        cases sub0 with
        | file content =>
          simp only [stepEntry] at hres
          simp only [wfEntries, Bool.and_eq_true, Bool.not_eq_true'] at hwf
          obtain ⟨hnc, hwfrest⟩ := hwf
          have hnm : name ∉ rest.map Prod.fst := contains_false_not_mem _ _ hnc
          cases hc : env.copyFail (src ++ [name]) (dst ++ [name]) with
          | some e0 =>
            rw [copyFileStep_fail env _ _ content st e0 hc] at hres
            simp at hres
          | none =>
            rw [copyFileStep_ok_eq env _ _ content st hc] at hres
            dsimp only at hres
            by_cases hdl : deadlineExceeded d (st.time + env.durCopy (src ++ [name])) = true
            · rw [if_pos hdl] at hres
              simp at hres
            · rw [if_neg hdl] at hres
              -- abstract the state after the file copy
              obtain ⟨st2, hst2fs, hres2⟩ :
                  ∃ st2 : St, st2.fs = (st.doLog env ("Copying file " ++
                    renderPath (src ++ [name]) ++ " -> " ++
                    renderPath (dst ++ [name]))).fs.writeFile (dst ++ [name]) content ∧
                    copyEntries env d src dst rest st2 = (st', none) := ⟨_, rfl, hres⟩
              have hdst2 : dst ∈ st2.fs.dirs := by
                rw [hst2fs, writeFile_dirs, doLog_fs]
                exact hdst
              have hpaths2 : st2.fs.filePaths = (dst ++ [name]) :: st.fs.filePaths := by
                rw [hst2fs, writeFile_filePaths, doLog_fs]
              have hclean2 : ∀ rel, dirAt rest rel →
                  (dst ++ rel) ∉ st2.fs.filePaths := by
                intro rel hda hmem
                rw [hpaths2] at hmem
                rcases List.mem_cons.mp hmem with hEq | hmemSt
                · cases rel with
                  | nil =>
                    simp at hEq
                  | cons m0 rel' =>
                    have h1 := List.append_cancel_left hEq
                    have hm0 : m0 = name := (List.cons_eq_cons.mp h1).1
                    have hkey := dirAt_rest_key rest m0 rel' hda
                    rw [hm0] at hkey
                    exact hnm hkey
                · cases rel with
                  | nil => exact hclean [] (dirAt_nil _) hmemSt
                  | cons m0 rel' =>
                    have hkey := dirAt_rest_key rest m0 rel' hda
                    have hm0 : name ≠ m0 := fun h => hnm (h ▸ hkey)
                    have hda2 : dirAt ((name, FsTree.file content) :: rest) (m0 :: rel') :=
                      dirAt_rest name _ rest m0 rel' (by simpa using hm0) hda
                    exact hclean (m0 :: rel') hda2 hmemSt
              have hszrest : sizeOf rest ≤ n := by
                have := sizeOf_rest_lt name (FsTree.file content) rest
                omega
              have ihrest := ih rest hszrest env d src dst st2 st' hwfrest hres2
                hdst2 hclean2
              intro rel sub hfind
              cases rel with
              | nil =>
                rw [find_nil_path] at hfind
                have hsub : sub = FsTree.dir ((name, FsTree.file content) :: rest) := by
                  injection hfind with h
                  exact h.symm
                subst hsub
                constructor
                · intro subs _
                  have hmono := copyEntries_dirs_mono env d src dst rest st2 dst hdst2
                  rw [hres2] at hmono
                  simpa using hmono
                · intro b hb
                  exact absurd hb (by intro h; cases h)
              | cons m0 rel' =>
                by_cases hb : (name == m0) = true
                · rw [find_cons_head name _ rest m0 rel' hb] at hfind
                  have hm0 : name = m0 := by simpa using hb
                  cases rel' with
                  | nil =>
                    rw [find_nil_path] at hfind
                    have hsub : sub = FsTree.file content := by
                      injection hfind with h
                      exact h.symm
                    subst hsub
                    constructor
                    · intro subs hsubs
                      exact absurd hsubs (by intro h; cases h)
                    · intro b hbb
                      have hcb : content = b := by
                        cases hbb; rfl
                      subst hcb
                      subst hm0
                      have hlook2 : st2.fs.lookupFile (dst ++ [name]) = some content := by
                        rw [hst2fs]
                        exact lookup_writeFile_self _ _ _
                      have hframe := copyEntries_files_frame env d src dst rest st2
                        (dst ++ [name]) (by
                          intro m hm hini
                          have := isInitOf_snoc_cons dst m name [] (by
                            simpa using hini)
                          exact hnm (this ▸ hm))
                      rw [hres2] at hframe
                      simp only at hframe
                      rw [hframe]
                      exact hlook2
                  | cons m1 rel'' =>
                    simp [FsTree.find] at hfind
                · have hb' : (name == m0) = false := by simpa using hb
                  rw [find_cons_rest name _ rest m0 rel' hb'] at hfind
                  exact ihrest (m0 :: rel') sub hfind
        | dir subEntries =>
          simp only [stepEntry] at hres
          simp only [wfEntries, Bool.and_eq_true, Bool.not_eq_true'] at hwf
          obtain ⟨⟨hnc, hwfsub⟩, hwfrest⟩ := hwf
          have hnm : name ∉ rest.map Prod.fst := contains_false_not_mem _ _ hnc
          have hdirAtName : dirAt ((name, FsTree.dir subEntries) :: rest) [name] := by
            have := dirAt_head_sub name subEntries rest [] (dirAt_nil subEntries)
            simpa using this
          cases hpr : copyDirPrologue env d (src ++ [name]) (dst ++ [name])
              (st.doLog env ("Descending into " ++ renderPath (src ++ [name]))) with
          | mk stp rp =>
            rw [hpr] at hres
            cases rp with
            | some e2 =>
              simp at hres
            | none =>
              dsimp only at hres
              cases hch : copyEntries env d (src ++ [name]) (dst ++ [name])
                  subEntries stp with
              | mk st2 r2 =>
                rw [hch] at hres
                cases r2 with
                | some e2 => simp at hres
                | none =>
                  dsimp only at hres
                  by_cases hdl : deadlineExceeded d st2.time = true
                  · rw [if_pos hdl] at hres
                    simp at hres
                  · rw [if_neg hdl] at hres
                    -- facts about the prologue state
                    have hstpfiles : stp.fs.filePaths = st.fs.filePaths := by
                      have h1 := copyDirPrologue_files env d (src ++ [name])
                        (dst ++ [name]) (st.doLog env ("Descending into " ++
                          renderPath (src ++ [name])))
                      rw [hpr] at h1
                      simp only at h1
                      rw [doLog_fs] at h1
                      exact DstFs_filePaths_congr _ _ h1
                    have hdstc : (dst ++ [name]) ∈ stp.fs.dirs := by
                      refine copyDirPrologue_ok_dst_dir env d (src ++ [name])
                        (dst ++ [name]) _ stp hpr (by simp) ?_
                      intro hex
                      rw [doLog_fs] at hex ⊢
                      rcases (existsPath_iff _ _).mp hex with hin | hin
                      · exact hin
                      · exact absurd hin (by
                          have := hclean [name] hdirAtName
                          simpa using this)
                    have hcleanc : ∀ rel, dirAt subEntries rel →
                        ((dst ++ [name]) ++ rel) ∉ stp.fs.filePaths := by
                      intro rel hda hmem
                      rw [hstpfiles] at hmem
                      rw [append_snoc_cons] at hmem
                      exact hclean (name :: rel)
                        (dirAt_head_sub name subEntries rest rel hda) hmem
                    have hszsub : sizeOf subEntries ≤ n := by
                      have := sizeOf_sub_lt name subEntries rest
                      omega
                    have ihsub := ih subEntries hszsub env d (src ++ [name])
                      (dst ++ [name]) stp st2 hwfsub hch hdstc hcleanc
                    -- facts about st2 for the rest of the walk
                    have hdst2 : dst ∈ st2.fs.dirs := by
                      have h1 : dst ∈ (st.doLog env ("Descending into " ++
                          renderPath (src ++ [name]))).fs.dirs := by
                        rw [doLog_fs]; exact hdst
                      have h2 := copyDirPrologue_dirs_mono env d (src ++ [name])
                        (dst ++ [name]) _ dst h1
                      rw [hpr] at h2
                      simp only at h2
                      have h3 := copyEntries_dirs_mono env d (src ++ [name])
                        (dst ++ [name]) subEntries stp dst h2
                      rw [hch] at h3
                      exact h3
                    have hclean2 : ∀ rel, dirAt rest rel →
                        (dst ++ rel) ∉ st2.fs.filePaths := by
                      intro rel hda hmem
                      have hmem2 : (dst ++ rel) ∈ (copyEntries env d (src ++ [name])
                          (dst ++ [name]) subEntries stp).1.fs.filePaths := by
                        rw [hch]; exact hmem
                      rcases copyEntries_new_files env d (src ++ [name]) (dst ++ [name])
                          subEntries stp (dst ++ rel) hmem2 with hin | ⟨m2, _, hini⟩
                      · rw [hstpfiles] at hin
                        cases rel with
                        | nil => exact hclean [] (dirAt_nil _) hin
                        | cons m0 rel' =>
                          have hkey := dirAt_rest_key rest m0 rel' hda
                          have hm0 : name ≠ m0 := fun h => hnm (h ▸ hkey)
                          exact hclean (m0 :: rel')
                            (dirAt_rest name _ rest m0 rel' (by simpa using hm0) hda) hin
                      · have hini2 : isInitOf (dst ++ [name]) (dst ++ rel) :=
                          isInitOf_of_snoc _ m2 _ hini
                        cases rel with
                        | nil =>
                          rw [List.append_nil] at hini2
                          exact not_isInitOf_snoc_self dst name hini2
                        | cons m0 rel' =>
                          have hm0 : name = m0 := isInitOf_snoc_cons dst name m0 rel' hini2
                          have hkey := dirAt_rest_key rest m0 rel' hda
                          exact hnm (hm0 ▸ hkey)
                    have hszrest : sizeOf rest ≤ n := by
                      have := sizeOf_rest_lt name (FsTree.dir subEntries) rest
                      omega
                    have ihrest := ih rest hszrest env d src dst st2 st' hwfrest hres
                      hdst2 hclean2
                    intro rel sub hfind
                    cases rel with
                    | nil =>
                      rw [find_nil_path] at hfind
                      have hsub : sub = FsTree.dir ((name, FsTree.dir subEntries) :: rest) := by
                        injection hfind with h
                        exact h.symm
                      subst hsub
                      constructor
                      · intro subs _
                        have hmono := copyEntries_dirs_mono env d src dst rest st2 dst hdst2
                        rw [hres] at hmono
                        simpa using hmono
                      · intro b hb
                        exact absurd hb (by intro h; cases h)
                    | cons m0 rel' =>
                      by_cases hb : (name == m0) = true
                      · rw [find_cons_head name _ rest m0 rel' hb] at hfind
                        have hm0 : name = m0 := by simpa using hb
                        subst hm0
                        have hmir := ihsub rel' sub hfind
                        constructor
                        · intro subs hsubs
                          have h1 := hmir.1 subs hsubs
                          have hmono := copyEntries_dirs_mono env d src dst rest st2
                            ((dst ++ [name]) ++ rel') h1
                          rw [hres] at hmono
                          rw [append_snoc_cons] at hmono
                          exact hmono
                        · intro b hbb
                          have h1 := hmir.2 b hbb
                          have hframe := copyEntries_files_frame env d src dst rest st2
                            ((dst ++ [name]) ++ rel') (by
                              intro m hm hini
                              rw [append_snoc_cons] at hini
                              have := isInitOf_snoc_cons dst m name rel' hini
                              exact hnm (this ▸ hm))
                          rw [hres] at hframe
                          simp only at hframe
                          rw [append_snoc_cons] at hframe h1
                          rw [hframe]
                          exact h1
                      · have hb' : (name == m0) = false := by simpa using hb
                        rw [find_cons_rest name _ rest m0 rel' hb'] at hfind
                        exact ihrest (m0 :: rel') sub hfind

theorem copyEntries_mirror (env : Env) (d : Option Nat) (src dst : Path)
    (es : List (String × FsTree)) (st st' : St) (hwf : wfEntries es = true)
    (hres : copyEntries env d src dst es st = (st', none)) (hdst : dst ∈ st.fs.dirs)
    (hclean : ∀ rel, dirAt es rel → (dst ++ rel) ∉ st.fs.filePaths) :
    ∀ rel sub, FsTree.find (FsTree.dir es) rel = some sub →
      (∀ subs, sub = FsTree.dir subs → (dst ++ rel) ∈ st'.fs.dirs) ∧
      (∀ b, sub = FsTree.file b → st'.fs.lookupFile (dst ++ rel) = some b) :=
  copyEntries_mirror_aux (sizeOf es) es (Nat.le_refl _) env d src dst st st' hwf hres
    hdst hclean


/-! ### Log coverage: every copied file and created directory has a line -/

theorem doLog_log_mem (env : Env) (st : St) (m : String) (x : Nat × String)
    (hx : x ∈ st.log) : x ∈ (st.doLog env m).log := by
  obtain ⟨t, ht⟩ := doLog_log env st m
  rw [ht]
  exact List.mem_append_left _ hx

theorem copyDirPrologue_log_mem (env : Env) (d : Option Nat) (src dst : Path) (st : St)
    (x : Nat × String) (hx : x ∈ st.log) : x ∈ (copyDirPrologue env d src dst st).1.log := by
  obtain ⟨t, ht⟩ := copyDirPrologue_log_mono env d src dst st
  rw [ht]
  exact List.mem_append_left _ hx

theorem copyEntries_log_mem (env : Env) (d : Option Nat) (src dst : Path)
    (es : List (String × FsTree)) (st : St) (x : Nat × String) (hx : x ∈ st.log) :
    x ∈ (copyEntries env d src dst es st).1.log := by
  obtain ⟨t, ht⟩ := copyEntries_log_mono env d src dst es st
  rw [ht]
  exact List.mem_append_left _ hx

theorem copyEntries_log_coverage_aux (n : Nat) :
    ∀ (es : List (String × FsTree)), sizeOf es ≤ n →
    ∀ (env : Env) (d : Option Nat) (src dst : Path) (st st' : St) (r : Option IoError),
      goodLogger env →
      copyEntries env d src dst es st = (st', r) →
      (∀ p b, st'.fs.lookupFile p = some b →
        st.fs.lookupFile p = some b ∨
        ∃ sp t, (t, "Copying file " ++ renderPath sp ++ " -> " ++ renderPath p) ∈ st'.log) ∧
      (∀ p, p ∈ st'.fs.dirs →
        p ∈ st.fs.dirs ∨
        ∃ q t, isInitOf p q ∧ (t, "Created directory " ++ renderPath q) ∈ st'.log) := by
  induction n with
  | zero =>
    intro es hes
    have := sizeOf_list_pos es
    omega
  | succ n ih =>
    intro es hes env d src dst st st' r hgood hres
    match es with
    | [] =>
      rw [copyEntries_nil] at hres
      have hst : st = st' := congrArg Prod.fst hres
      subst hst
      exact ⟨fun p b hb => Or.inl hb, fun p hp => Or.inl hp⟩
    | (name, sub0) :: rest =>
      cases he : env.entryFail src name with
      | some e =>
        rw [copyEntries_cons_iter_fail env d src dst name sub0 rest st e he] at hres
        have hst : st = st' := congrArg Prod.fst hres
        subst hst
        exact ⟨fun p b hb => Or.inl hb, fun p hp => Or.inl hp⟩
      | none =>
        rw [copyEntries_cons_ok env d src dst name sub0 rest st he] at hres
        -- step-level coverage for the head entry
        cases hse : stepEntry env d src dst name sub0 st with
        | mk st2 r2 =>
          have hstep : (∀ p b, st2.fs.lookupFile p = some b →
              st.fs.lookupFile p = some b ∨
              ∃ sp t, (t, "Copying file " ++ renderPath sp ++ " -> " ++ renderPath p) ∈
                st2.log) ∧
              (∀ p, p ∈ st2.fs.dirs →
                p ∈ st.fs.dirs ∨
                ∃ q t, isInitOf p q ∧
                  (t, "Created directory " ++ renderPath q) ∈ st2.log) := by
            cases sub0 with
            | file content =>
              simp only [stepEntry] at hse
              constructor
              · intro p b hb
                by_cases hp : p = dst ++ [name]
                · subst hp
                  have hlgood := copyFileStep_log_good env (src ++ [name]) (dst ++ [name])
                    content st hgood
                  rw [hse] at hlgood
                  simp only at hlgood
                  refine Or.inr ⟨src ++ [name], st.time, ?_⟩
                  rw [hlgood]
                  exact List.mem_append_right _ (List.mem_singleton.mpr rfl)
                · have hne := copyFileStep_lookup_ne env (src ++ [name]) (dst ++ [name])
                    content st p hp
                  rw [hse] at hne
                  simp only at hne
                  rw [hne] at hb
                  exact Or.inl hb
              · intro p hp
                have hd := copyFileStep_dirs env (src ++ [name]) (dst ++ [name]) content st
                rw [hse] at hd
                simp only at hd
                rw [hd] at hp
                exact Or.inl hp
            | dir subEntries =>
              simp only [stepEntry] at hse
              cases hpr : copyDirPrologue env d (src ++ [name]) (dst ++ [name])
                  (st.doLog env ("Descending into " ++ renderPath (src ++ [name]))) with
              | mk stp rp =>
                rw [hpr] at hse
                -- prologue-level coverage
                have hprfiles : stp.fs.files = st.fs.files := by
                  have h1 := copyDirPrologue_files env d (src ++ [name]) (dst ++ [name])
                    (st.doLog env ("Descending into " ++ renderPath (src ++ [name])))
                  rw [hpr] at h1
                  simp only at h1
                  rw [doLog_fs] at h1
                  exact h1
                have hprcover : ∀ p, p ∈ stp.fs.dirs →
                    p ∈ st.fs.dirs ∨
                    ∃ q t, isInitOf p q ∧
                      (t, "Created directory " ++ renderPath q) ∈ stp.log := by
                  intro p hp
                  by_cases hin : p ∈ st.fs.dirs
                  · exact Or.inl hin
                  · have hnd := copyDirPrologue_new_dirs env d (src ++ [name])
                      (dst ++ [name]) _ p (by rw [hpr]; exact hp)
                    have hcl := copyDirPrologue_created_logged env d (src ++ [name])
                      (dst ++ [name]) _ hgood p (by rw [hpr]; exact hp)
                      (by rw [doLog_fs]; exact hin)
                    rw [hpr] at hcl
                    simp only at hcl
                    obtain ⟨t, ht⟩ := hcl
                    rcases hnd with hnd | hini
                    · rw [doLog_fs] at hnd
                      exact Or.inl hnd
                    · exact Or.inr ⟨dst ++ [name], t, hini, ht⟩
                cases rp with
                | some e2 =>
                  dsimp only at hse
                  have h12 : stp = st2 := congrArg Prod.fst hse
                  subst h12
                  constructor
                  · intro p b hb
                    have : stp.fs.lookupFile p = st.fs.lookupFile p :=
                      DstFs_lookup_congr _ _ hprfiles p
                    rw [this] at hb
                    exact Or.inl hb
                  · exact hprcover
                | none =>
                  dsimp only at hse
                  have hsz : sizeOf subEntries ≤ n := by
                    have := sizeOf_sub_lt name subEntries rest
                    omega
                  have hchild := ih subEntries hsz env d (src ++ [name]) (dst ++ [name])
                    stp st2 r2 hgood hse
                  constructor
                  · intro p b hb
                    rcases hchild.1 p b hb with hatp | hline
                    · have : stp.fs.lookupFile p = st.fs.lookupFile p :=
                        DstFs_lookup_congr _ _ hprfiles p
                      rw [this] at hatp
                      exact Or.inl hatp
                    · exact Or.inr hline
                  · intro p hp
                    rcases hchild.2 p hp with hatp | hline
                    · rcases hprcover p hatp with hin | ⟨q, t, hq, hql⟩
                      · exact Or.inl hin
                      · have hmem : (t, "Created directory " ++ renderPath q) ∈ st2.log := by
                          have hm := copyEntries_log_mem env d (src ++ [name])
                            (dst ++ [name]) subEntries stp _ hql
                          rw [hse] at hm
                          exact hm
                        exact Or.inr ⟨q, t, hq, hmem⟩
                    · exact Or.inr hline
          rw [hse] at hres
          cases r2 with
          | some e2 =>
            have h12 : st2 = st' := congrArg Prod.fst hres
            subst h12
            exact hstep
          | none =>
            dsimp only at hres
            by_cases hdl : deadlineExceeded d st2.time = true
            · rw [if_pos hdl] at hres
              have h12 : st2 = st' := congrArg Prod.fst hres
              subst h12
              exact hstep
            · rw [if_neg hdl] at hres
              have hsz : sizeOf rest ≤ n := by
                have := sizeOf_rest_lt name sub0 rest
                omega
              have hrest := ih rest hsz env d src dst st2 st' r hgood hres
              constructor
              · intro p b hb
                rcases hrest.1 p b hb with hat2 | hline
                · rcases hstep.1 p b hat2 with hat | ⟨sp, t, hl⟩
                  · exact Or.inl hat
                  · have hm := copyEntries_log_mem env d src dst rest st2 _ hl
                    rw [hres] at hm
                    exact Or.inr ⟨sp, t, hm⟩
                · exact Or.inr hline
              · intro p hp
                rcases hrest.2 p hp with hat2 | hline
                · rcases hstep.2 p hat2 with hat | ⟨q, t, hq, hl⟩
                  · exact Or.inl hat
                  · have hm := copyEntries_log_mem env d src dst rest st2 _ hl
                    rw [hres] at hm
                    exact Or.inr ⟨q, t, hq, hm⟩
                · exact Or.inr hline

theorem copyEntries_log_coverage (env : Env) (d : Option Nat) (src dst : Path)
    (es : List (String × FsTree)) (st st' : St) (r : Option IoError)
    (hgood : goodLogger env) (hres : copyEntries env d src dst es st = (st', r)) :
    (∀ p b, st'.fs.lookupFile p = some b →
      st.fs.lookupFile p = some b ∨
      ∃ sp t, (t, "Copying file " ++ renderPath sp ++ " -> " ++ renderPath p) ∈ st'.log) ∧
    (∀ p, p ∈ st'.fs.dirs →
      p ∈ st.fs.dirs ∨
      ∃ q t, isInitOf p q ∧ (t, "Created directory " ++ renderPath q) ∈ st'.log) :=
  copyEntries_log_coverage_aux (sizeOf es) es (Nat.le_refl _) env d src dst st st' r
    hgood hres


/-! ### Stage lemmas for `save_report_to_network` -/

theorem copy_dir_recursive_ok_split (env : Env) (d : Option Nat) (src dst : Path)
    (es : List (String × FsTree)) (st st2 : St)
    (h : copy_dir_recursive env d src dst es st = (st2, none)) :
    ∃ stP, copyDirPrologue env d src dst st = (stP, none) ∧
      copyEntries env d src dst es stP = (st2, none) := by
  unfold copy_dir_recursive at h
  cases hpr : copyDirPrologue env d src dst st with
  | mk stP rP =>
    rw [hpr] at h
    cases rP with
    | some e => dsimp only at h; simp at h
    | none =>
      dsimp only at h
      exact ⟨stP, rfl, h⟩

theorem saveReportCopyPhase_ok (env : Env) (src dst : Path)
    (es : List (String × FsTree)) (st st2 : St)
    (h : copy_dir_recursive env (some (st.time + 120)) src dst es
      (st.doLog env ("Copy target resolved to " ++ renderPath dst)) = (st2, none)) :
    saveReportCopyPhase env src dst es st =
      (st2.doLog env ("Network copy completed successfully for " ++ renderPath src ++
        " -> " ++ renderPath dst), Except.ok true) := by
  unfold saveReportCopyPhase
  dsimp only
  rw [doLog_time, h]

theorem saveReportCopyPhase_err (env : Env) (src dst : Path)
    (es : List (String × FsTree)) (st st2 : St) (e : IoError)
    (h : copy_dir_recursive env (some (st.time + 120)) src dst es
      (st.doLog env ("Copy target resolved to " ++ renderPath dst)) = (st2, some e)) :
    saveReportCopyPhase env src dst es st =
      (st2.doLog env ("Copy failed for " ++ renderPath src ++ " -> " ++ renderPath dst ++
        ": " ++ e.msg), Except.error ("Copy failed: " ++ e.msg)) := by
  unfold saveReportCopyPhase
  dsimp only
  rw [doLog_time, h]

theorem saveReportCopyPhase_split (env : Env) (src dst : Path)
    (es : List (String × FsTree)) (st st' : St) (v : Except String Bool)
    (h : saveReportCopyPhase env src dst es st = (st', v)) :
    ∃ st2 r, copy_dir_recursive env (some (st.time + 120)) src dst es
      (st.doLog env ("Copy target resolved to " ++ renderPath dst)) = (st2, r) ∧
      st'.fs = st2.fs ∧
      (r = none → v = Except.ok true) ∧
      (∀ e, r = some e → v = Except.error ("Copy failed: " ++ e.msg)) := by
  cases hcd : copy_dir_recursive env (some (st.time + 120)) src dst es
      (st.doLog env ("Copy target resolved to " ++ renderPath dst)) with
  | mk st2 r =>
    cases r with
    | none =>
      rw [saveReportCopyPhase_ok env src dst es st st2 hcd] at h
      have h1 := congrArg Prod.fst h
      have h2 := congrArg Prod.snd h
      simp only at h1 h2
      refine ⟨st2, none, rfl, ?_, fun _ => h2.symm, fun e he => by simp at he⟩
      rw [← h1]
      exact doLog_fs env st2 _
    | some e =>
      rw [saveReportCopyPhase_err env src dst es st st2 e hcd] at h
      have h1 := congrArg Prod.fst h
      have h2 := congrArg Prod.snd h
      simp only at h1 h2
      refine ⟨st2, some e, rfl, ?_, fun hne => by simp at hne, fun e2 he2 => ?_⟩
      · rw [← h1]
        exact doLog_fs env st2 _
      · have he3 : e = e2 := by
          injection he2 with h3
        subst he3
        exact h2.symm

theorem save_report_to_network_stages (env : Env) (report_path : Path)
    (es : List (String × FsTree)) (cfg : NetworkConfig) (st0 : St) (nm : String)
    (hnorm : ¬ normalize_unc_path cfg.unc_path = "")
    (hlast : report_path.getLast? = some nm) :
    ∃ stV : St,
      save_report_to_network env report_path (some es) cfg st0 =
        (match env.probeFail with
         | none =>
           saveReportCopyPhase env report_path
             (parsePath (normalize_unc_path cfg.unc_path) ++ [nm]) es
             (stV.doLog env ("Verified network share is reachable: " ++
               normalize_unc_path cfg.unc_path))
         | some e =>
           if e.kind = IoErrorKind.notFound then
             (stV.doLog env ("Warning: unable to list network share " ++
               normalize_unc_path cfg.unc_path ++ ": " ++ e.msg),
               Except.error ("Network share not found: " ++
                 normalize_unc_path cfg.unc_path))
           else
             saveReportCopyPhase env report_path
               (parsePath (normalize_unc_path cfg.unc_path) ++ [nm]) es
               (stV.doLog env ("Warning: unable to list network share " ++
                 normalize_unc_path cfg.unc_path ++ ": " ++ e.msg))) ∧
      stV.fs = st0.fs ∧
      stV.time = st0.time + env.durProbe := by
  unfold save_report_to_network
  dsimp only
  rw [if_neg hnorm, hlast]
  refine ⟨_, rfl, ?_, ?_⟩
  · rw [doLog_fs, doLog_fs]
  · rw [doLog_time, doLog_time]


/-! ## Claim theorems for the network replicator -/

/-- Claim C1 — for every local source report folder (a well-formed snapshot
tree) and target share path, a `save_report_to_network` call that returns
success has copied the entire tree into the subfolder of the normalized
target named after the source folder's basename: every relative
subdirectory of the source exists under that destination subfolder, and
every file exists there with byte content identical to the source file.
(The destination world starts fresh, as for a share directory the report
has not been copied to yet.) -/
theorem claim_C1_network_copy_mirrors_source
    (env : Env) (report_path : Path) (es : List (String × FsTree))
    (cfg : NetworkConfig) (st0 st' : St) (nm : String)
    (hwf : wfEntries es = true)
    (hfresh : st0.fs = ⟨[], []⟩)
    (hlast : report_path.getLast? = some nm)
    (hok : save_report_to_network env report_path (some es) cfg st0 =
      (st', Except.ok true)) :
    ∀ rel sub, FsTree.find (FsTree.dir es) rel = some sub →
      (∀ subs, sub = FsTree.dir subs →
        (parsePath (normalize_unc_path cfg.unc_path) ++ nm :: rel) ∈ st'.fs.dirs) ∧
      (∀ b, sub = FsTree.file b →
        st'.fs.lookupFile (parsePath (normalize_unc_path cfg.unc_path) ++ nm :: rel) =
          some b) := by
  by_cases hnorm : normalize_unc_path cfg.unc_path = ""
  · exfalso
    unfold save_report_to_network at hok
    dsimp only at hok
    rw [if_pos hnorm] at hok
    simp at hok
  obtain ⟨stV, heq, hfsV, _⟩ :=
    save_report_to_network_stages env report_path es cfg st0 nm hnorm hlast
  rw [heq] at hok
  -- in every surviving case the copy phase ran from a state with the fresh fs
  have hphase : ∃ stW : St, stW.fs = st0.fs ∧
      saveReportCopyPhase env report_path
        (parsePath (normalize_unc_path cfg.unc_path) ++ [nm]) es stW =
        (st', Except.ok true) := by
    cases hpf : env.probeFail with
    | none =>
      rw [hpf] at hok
      dsimp only at hok
      exact ⟨_, by rw [doLog_fs]; exact hfsV, hok⟩
    | some e =>
      rw [hpf] at hok
      dsimp only at hok
      by_cases hk : e.kind = IoErrorKind.notFound
      · rw [if_pos hk] at hok
        simp at hok
      · rw [if_neg hk] at hok
        exact ⟨_, by rw [doLog_fs]; exact hfsV, hok⟩
  obtain ⟨stW, hfsW, hok2⟩ := hphase
  obtain ⟨st2, r, hwalk, hfs2, hrok, hrerr⟩ :=
    saveReportCopyPhase_split env report_path _ es stW st' (Except.ok true) hok2
  cases r with
  | some e =>
    have := hrerr e rfl
    simp at this
  | none =>
    obtain ⟨stP, hpro, hentries⟩ :=
      copy_dir_recursive_ok_split env _ report_path _ es _ st2 hwalk
    -- the state entering the prologue still has the fresh destination world
    have hfsIn : (stW.doLog env ("Copy target resolved to " ++
        renderPath (parsePath (normalize_unc_path cfg.unc_path) ++ [nm]))).fs = st0.fs := by
      rw [doLog_fs]
      exact hfsW
    have hdstP : (parsePath (normalize_unc_path cfg.unc_path) ++ [nm]) ∈ stP.fs.dirs := by
      refine copyDirPrologue_ok_dst_dir env _ report_path _ _ stP hpro (by simp) ?_
      intro hex
      rw [hfsIn, hfresh] at hex
      simp [DstFs.existsPath, DstFs.filePaths] at hex
    have hfilesP : stP.fs.filePaths = [] := by
      have h1 := copyDirPrologue_files env (some (stW.time + 120))
        report_path (parsePath (normalize_unc_path cfg.unc_path) ++ [nm])
        (stW.doLog env ("Copy target resolved to " ++
          renderPath (parsePath (normalize_unc_path cfg.unc_path) ++ [nm])))
      rw [hpro] at h1
      simp only at h1
      rw [hfsIn, hfresh] at h1
      unfold DstFs.filePaths
      rw [h1]
      rfl
    have hclean : ∀ rel, dirAt es rel →
        ((parsePath (normalize_unc_path cfg.unc_path) ++ [nm]) ++ rel) ∉
          stP.fs.filePaths := by
      intro rel _ hmem
      rw [hfilesP] at hmem
      simp at hmem
    have hmir := copyEntries_mirror env _ report_path _ es stP st2 hwf hentries hdstP hclean
    intro rel sub hfind
    obtain ⟨h1, h2⟩ := hmir rel sub hfind
    constructor
    · intro subs hsubs
      have := h1 subs hsubs
      rw [append_snoc_cons] at this
      rw [show st'.fs = st2.fs from hfs2]
      exact this
    · intro b hbb
      have := h2 b hbb
      rw [append_snoc_cons] at this
      rw [show st'.fs = st2.fs from hfs2]
      exact this

/-- Claim C2 — if the initial listing of the normalized target share fails
with a not-found error, `save_report_to_network` returns an error naming the
share and performs no directory creation or file copy at the target (its
destination world is unchanged); if the initial listing fails with any
other error kind, the failure is only logged as a warning and the copy
proceeds anyway (the call continues into the copy phase with the
destination world untouched so far). -/
theorem claim_C2_probe_not_found_aborts_others_proceed
    (env : Env) (report_path : Path) (es : List (String × FsTree))
    (cfg : NetworkConfig) (st0 : St) (nm : String) (e : IoError)
    (hnorm : ¬ normalize_unc_path cfg.unc_path = "")
    (hlast : report_path.getLast? = some nm)
    (hprobe : env.probeFail = some e) :
    (e.kind = IoErrorKind.notFound →
      ∃ stX, save_report_to_network env report_path (some es) cfg st0 =
        (stX, Except.error ("Network share not found: " ++
          normalize_unc_path cfg.unc_path)) ∧
        stX.fs = st0.fs) ∧
    (e.kind ≠ IoErrorKind.notFound →
      ∃ stW, save_report_to_network env report_path (some es) cfg st0 =
        saveReportCopyPhase env report_path
          (parsePath (normalize_unc_path cfg.unc_path) ++ [nm]) es stW ∧
        stW.fs = st0.fs ∧
        (goodLogger env →
          ∃ t, (t, "Warning: unable to list network share " ++
            normalize_unc_path cfg.unc_path ++ ": " ++ e.msg) ∈ stW.log)) := by
  obtain ⟨stV, heq, hfsV, _⟩ :=
    save_report_to_network_stages env report_path es cfg st0 nm hnorm hlast
  rw [hprobe] at heq
  dsimp only at heq
  constructor
  · intro hk
    rw [if_pos hk] at heq
    exact ⟨_, heq, by rw [doLog_fs]; exact hfsV⟩
  · intro hk
    rw [if_neg hk] at heq
    refine ⟨_, heq, by rw [doLog_fs]; exact hfsV, ?_⟩
    intro hgood
    rw [doLog_log_good env stV _ hgood]
    exact ⟨stV.time, List.mem_append_right _ (List.mem_singleton.mpr rfl)⟩


/-- Claim C3 — during network replication, the first file-copy or
directory-creation error aborts the operation immediately: the result is
fixed at the failure point (independently of the remaining entries, which
are never processed), it carries a message naming the specific
source/destination pair, the destination world keeps exactly what was
copied before the failure (no rollback), and `save_report_to_network`
surfaces the error as `Copy failed: ...`. -/
theorem claim_C3_first_error_aborts :
    (∀ (env : Env) (d : Option Nat) (src dst : Path) (name : String) (b : Bytes)
      (rest : List (String × FsTree)) (st : St) (e0 : IoError),
      env.entryFail src name = none →
      env.copyFail (src ++ [name]) (dst ++ [name]) = some e0 →
      copyEntries env d src dst ((name, FsTree.file b) :: rest) st =
        (st.doLog env ("Copying file " ++ renderPath (src ++ [name]) ++ " -> " ++
          renderPath (dst ++ [name])),
          some ⟨e0.kind, "Failed to copy " ++ renderPath (src ++ [name]) ++ " -> " ++
            renderPath (dst ++ [name]) ++ ": " ++ e0.msg⟩) ∧
      (copyEntries env d src dst ((name, FsTree.file b) :: rest) st).1.fs = st.fs) ∧
    (∀ (env : Env) (d : Option Nat) (src dst : Path) (es : List (String × FsTree))
      (st : St) (e0 : IoError),
      deadlineExceeded d st.time = false →
      st.fs.existsPath dst = false →
      env.createDirFail dst = some e0 →
      copy_dir_recursive env d src dst es st =
        (st, some ⟨e0.kind,
          "Failed to create directory " ++ renderPath dst ++ ": " ++ e0.msg⟩)) ∧
    (∀ (env : Env) (src dst : Path) (es : List (String × FsTree)) (st st2 : St)
      (e : IoError),
      copy_dir_recursive env (some (st.time + 120)) src dst es
        (st.doLog env ("Copy target resolved to " ++ renderPath dst)) = (st2, some e) →
      (saveReportCopyPhase env src dst es st).2 =
        Except.error ("Copy failed: " ++ e.msg)) := by
  refine ⟨?_, ?_, ?_⟩
  · intro env d src dst name b rest st e0 he hc
    have heq : copyEntries env d src dst ((name, FsTree.file b) :: rest) st =
        (st.doLog env ("Copying file " ++ renderPath (src ++ [name]) ++ " -> " ++
          renderPath (dst ++ [name])),
          some ⟨e0.kind, "Failed to copy " ++ renderPath (src ++ [name]) ++ " -> " ++
            renderPath (dst ++ [name]) ++ ": " ++ e0.msg⟩) := by
      rw [copyEntries_cons_ok env d src dst name (FsTree.file b) rest st he]
      simp only [stepEntry]
      rw [copyFileStep_fail env _ _ b st e0 hc]
    refine ⟨heq, ?_⟩
    rw [heq]
    exact doLog_fs env st _
  · intro env d src dst es st e0 hd hex hc
    unfold copy_dir_recursive
    rw [copyDirPrologue_mkdir_fail env d src dst st hd hex e0 hc]
  · intro env src dst es st st2 e h
    rw [saveReportCopyPhase_err env src dst es st st2 e h]

/-- Claim C4 — `save_report_to_network` fixes one wall-clock deadline 120
seconds after the copy starts (the whole walk runs under
`now + 120`); the deadline is checked on entry to each directory
(`Copy timed out before processing ...` with the state untouched) and
re-checked after each entry (`Copy timed out while processing ...` naming
the path last being processed); an individual file copy that has already
started is never interrupted mid-copy: its destination file is present
even when the deadline passed during the copy. -/
theorem claim_C4_deadline_checked_between_entries :
    (∀ (env : Env) (d : Option Nat) (src dst : Path) (es : List (String × FsTree))
      (st : St),
      deadlineExceeded d st.time = true →
      copy_dir_recursive env d src dst es st =
        (st, some ⟨IoErrorKind.timedOut,
          "Copy timed out before processing " ++ renderPath src⟩)) ∧
    (∀ (env : Env) (d : Option Nat) (src dst : Path) (name : String) (b : Bytes)
      (rest : List (String × FsTree)) (st : St),
      env.entryFail src name = none →
      env.copyFail (src ++ [name]) (dst ++ [name]) = none →
      deadlineExceeded d (st.time + env.durCopy (src ++ [name])) = true →
      ∃ st2, copyEntries env d src dst ((name, FsTree.file b) :: rest) st =
        (st2, some ⟨IoErrorKind.timedOut,
          "Copy timed out while processing " ++ renderPath (src ++ [name])⟩) ∧
        st2.fs.lookupFile (dst ++ [name]) = some b) ∧
    (∀ (env : Env) (src dst : Path) (es : List (String × FsTree)) (st st' : St)
      (v : Except String Bool),
      saveReportCopyPhase env src dst es st = (st', v) →
      ∃ st2 r, copy_dir_recursive env (some (st.time + 120)) src dst es
        (st.doLog env ("Copy target resolved to " ++ renderPath dst)) = (st2, r) ∧
        st'.fs = st2.fs) := by
  refine ⟨?_, ?_, ?_⟩
  · intro env d src dst es st hd
    unfold copy_dir_recursive
    rw [copyDirPrologue_timeout env d src dst st hd]
  · intro env d src dst name b rest st he hc hdl
    rw [copyEntries_cons_ok env d src dst name (FsTree.file b) rest st he]
    simp only [stepEntry]
    rw [copyFileStep_ok_eq env _ _ b st hc]
    dsimp only
    rw [if_pos hdl]
    refine ⟨_, rfl, ?_⟩
    exact lookup_writeFile_self _ _ _
  · intro env src dst es st st' v h
    obtain ⟨st2, r, hcd, hfs, _, _⟩ := saveReportCopyPhase_split env src dst es st st' v h
    exact ⟨st2, r, hcd, hfs⟩

/-- An environment in which `NetworkCopyLogger::new_from_state` failed to
resolve a log path (the logs directory could not be created), so every
`log` call falls back to stderr; all other primitives succeed instantly. -/
def envNoLogFile : Env :=
  { hasLogFile := false, logOpenFail := fun _ => false,
    createDirFail := fun _ => none, readDirFail := fun _ => none,
    entryFail := fun _ _ => none, copyFail := fun _ _ => none,
    probeFail := none, durCreate := fun _ => 0, durRead := fun _ => 0,
    durCopy := fun _ => 0, durProbe := 0 }

/-- A fresh state: empty destination world, empty log, clock at zero. -/
def stFresh : St :=
  { fs := { dirs := [], files := [] }, log := [], logCalls := 0, time := 0 }

/-- Claim C5, counterexample — a run of the walk in which a file copy is
performed (the file is present at the destination afterwards) yet the
network-copy log file receives no line at all, because the logger has no
log file and `NetworkCopyLogger::log` silently falls back to stderr
(reports.rs:489-499).  This refutes the claim that every file copy
appends a line to the network-copy log file. -/
theorem claim_C5_counterexample :
    (copyEntries envNoLogFile (some 120) ["r"] ["s"]
      [("a.txt", FsTree.file [7])] stFresh).1.fs.lookupFile ["s", "a.txt"] =
        some [7] ∧
    (copyEntries envNoLogFile (some 120) ["r"] ["s"]
      [("a.txt", FsTree.file [7])] stFresh).1.log = [] := by
  constructor <;>
    simp [copyEntries, stepEntry, copyFileStep, St.doLog, envNoLogFile, stFresh,
      deadlineExceeded, DstFs.writeFile, DstFs.lookupFile, renderPath]

/-- On a walk that completes without error, every subdirectory node of the
snapshot had its descent logged: the final log holds a timestamped
`Descending into ...` line for the source path of every nonempty relative
directory path of the tree (provided the logger reaches the log file). -/
theorem copyEntries_descents_logged_aux (n : Nat) :
    ∀ (es : List (String × FsTree)), sizeOf es ≤ n →
    ∀ (env : Env) (d : Option Nat) (src dst : Path) (st st' : St),
      goodLogger env →
      copyEntries env d src dst es st = (st', none) →
      ∀ rel, rel ≠ [] → dirAt es rel →
        ∃ t, (t, "Descending into " ++ renderPath (src ++ rel)) ∈ st'.log := by
  induction n with
  | zero =>
    intro es hes
    have := sizeOf_list_pos es
    omega
  | succ n ih =>
    intro es hes env d src dst st st' hgood hres rel hne hda
    match es with
    | [] =>
      obtain ⟨s, hs⟩ := hda
      cases rel with
      | nil => exact absurd rfl hne
      | cons m0 rel' => simp [FsTree.find] at hs
    | (name, sub0) :: rest =>
      have hszrest : sizeOf rest ≤ n := by
        have := sizeOf_rest_lt name sub0 rest
        omega
      cases he : env.entryFail src name with
      | some e =>
        rw [copyEntries_cons_iter_fail env d src dst name sub0 rest st e he] at hres
        simp at hres
      | none =>
        rw [copyEntries_cons_ok env d src dst name sub0 rest st he] at hres
        cases sub0 with
        | file content =>
          simp only [stepEntry] at hres
          cases hstep : copyFileStep env (src ++ [name]) (dst ++ [name]) content st with
          | mk st2 rr =>
            rw [hstep] at hres
            cases rr with
            | some e => simp at hres
            | none =>
              dsimp only at hres
              by_cases hdl : deadlineExceeded d st2.time = true
              · rw [if_pos hdl] at hres
                simp at hres
              · rw [if_neg hdl] at hres
                cases rel with
                | nil => exact absurd rfl hne
                | cons m0 rel' =>
                  obtain ⟨s, hs⟩ := hda
                  by_cases hb : (name == m0) = true
                  · rw [find_cons_head name _ rest m0 rel' hb] at hs
                    cases rel' with
                    | nil =>
                      rw [find_nil_path] at hs
                      injection hs with h
                      cases h
                    | cons m1 rel'' => simp [FsTree.find] at hs
                  · have hb' : (name == m0) = false := by simpa using hb
                    rw [find_cons_rest name _ rest m0 rel' hb'] at hs
                    exact ih rest hszrest env d src dst st2 st' hgood hres
                      (m0 :: rel') (by simp) ⟨s, hs⟩
        | dir subEntries =>
          simp only [stepEntry] at hres
          cases hpr : copyDirPrologue env d (src ++ [name]) (dst ++ [name])
              (st.doLog env ("Descending into " ++ renderPath (src ++ [name]))) with
          | mk stp rp =>
            rw [hpr] at hres
            cases rp with
            | some e2 => simp at hres
            | none =>
              dsimp only at hres
              cases hch : copyEntries env d (src ++ [name]) (dst ++ [name])
                  subEntries stp with
              | mk st2 r2 =>
                rw [hch] at hres
                cases r2 with
                | some e2 => simp at hres
                | none =>
                  dsimp only at hres
                  by_cases hdl : deadlineExceeded d st2.time = true
                  · rw [if_pos hdl] at hres
                    simp at hres
                  · rw [if_neg hdl] at hres
                    have hszsub : sizeOf subEntries ≤ n := by
                      have := sizeOf_sub_lt name subEntries rest
                      omega
                    cases rel with
                    | nil => exact absurd rfl hne
                    | cons m0 rel' =>
                      obtain ⟨s, hs⟩ := hda
                      by_cases hb : (name == m0) = true
                      · have hm0 : name = m0 := by simpa using hb
                        rw [find_cons_head name _ rest m0 rel' hb] at hs
                        cases rel' with
                        | nil =>
                          -- the descent into this very entry was just logged
                          refine ⟨st.time, ?_⟩
                          have h0 : (st.time, "Descending into " ++
                              renderPath (src ++ [name])) ∈
                              (st.doLog env ("Descending into " ++
                                renderPath (src ++ [name]))).log := by
                            rw [doLog_log_good env st _ hgood]
                            exact List.mem_append_right _ (List.mem_singleton.mpr rfl)
                          have h1 := copyDirPrologue_log_mem env d (src ++ [name])
                            (dst ++ [name]) _ _ h0
                          rw [hpr] at h1
                          have h2 := copyEntries_log_mem env d (src ++ [name])
                            (dst ++ [name]) subEntries stp _ h1
                          rw [hch] at h2
                          have h3 := copyEntries_log_mem env d src dst rest st2 _ h2
                          rw [hres] at h3
                          rw [hm0] at h3
                          exact h3
                        | cons m1 rel'' =>
                          have hda2 : dirAt subEntries (m1 :: rel'') := ⟨s, hs⟩
                          obtain ⟨t, ht⟩ := ih subEntries hszsub env d (src ++ [name])
                            (dst ++ [name]) stp st2 hgood hch (m1 :: rel'')
                            (by simp) hda2
                          refine ⟨t, ?_⟩
                          have h3 := copyEntries_log_mem env d src dst rest st2 _ ht
                          rw [hres] at h3
                          rw [append_snoc_cons] at h3
                          rw [hm0] at h3
                          exact h3
                      · have hb' : (name == m0) = false := by simpa using hb
                        rw [find_cons_rest name _ rest m0 rel' hb'] at hs
                        exact ih rest hszrest env d src dst st2 st' hgood hres
                          (m0 :: rel') (by simp) ⟨s, hs⟩

/-- Wrapper of `copyEntries_descents_logged_aux` at the list's own size. -/
theorem copyEntries_descents_logged (env : Env) (d : Option Nat) (src dst : Path)
    (es : List (String × FsTree)) (st st' : St) (hgood : goodLogger env)
    (hres : copyEntries env d src dst es st = (st', none)) :
    ∀ rel, rel ≠ [] → dirAt es rel →
      ∃ t, (t, "Descending into " ++ renderPath (src ++ rel)) ∈ st'.log :=
  copyEntries_descents_logged_aux (sizeOf es) es (Nat.le_refl _) env d src dst st st'
    hgood hres

/-- Claim C5, amended — provided the logger resolved the network-copy log
file and every append to it succeeds, the walk logs each of its actions:
after any run (also one aborted partway by an error), every file present
at the destination that was not there before has a timestamped
`Copying file ... -> ...` line in the log file, and every directory that
appeared is covered by a timestamped `Created directory ...` line; and on
a walk that completes without error every subdirectory of the source
snapshot has its timestamped `Descending into ...` line. -/
theorem claim_C5_every_processed_item_logged
    (env : Env) (d : Option Nat) (src dst : Path) (es : List (String × FsTree))
    (st st' : St) (r : Option IoError) (hgood : goodLogger env)
    (hres : copy_dir_recursive env d src dst es st = (st', r)) :
    (∀ p b, st'.fs.lookupFile p = some b →
      st.fs.lookupFile p = some b ∨
      ∃ sp t, (t, "Copying file " ++ renderPath sp ++ " -> " ++ renderPath p) ∈ st'.log) ∧
    (∀ p, p ∈ st'.fs.dirs →
      p ∈ st.fs.dirs ∨
      ∃ q t, isInitOf p q ∧ (t, "Created directory " ++ renderPath q) ∈ st'.log) ∧
    (r = none → ∀ rel, rel ≠ [] → dirAt es rel →
      ∃ t, (t, "Descending into " ++ renderPath (src ++ rel)) ∈ st'.log) := by
  unfold copy_dir_recursive at hres
  cases hpr : copyDirPrologue env d src dst st with
  | mk stP rP =>
    rw [hpr] at hres
    have hprfiles : stP.fs.files = st.fs.files := by
      have h1 := copyDirPrologue_files env d src dst st
      rw [hpr] at h1
      exact h1
    have hprcover : ∀ p, p ∈ stP.fs.dirs →
        p ∈ st.fs.dirs ∨
        ∃ q t, isInitOf p q ∧ (t, "Created directory " ++ renderPath q) ∈ stP.log := by
      intro p hp
      by_cases hin : p ∈ st.fs.dirs
      · exact Or.inl hin
      · have hnd := copyDirPrologue_new_dirs env d src dst st p (by rw [hpr]; exact hp)
        have hcl := copyDirPrologue_created_logged env d src dst st hgood p
          (by rw [hpr]; exact hp) hin
        rw [hpr] at hcl
        simp only at hcl
        obtain ⟨t, ht⟩ := hcl
        rcases hnd with hnd | hini
        · exact Or.inl hnd
        · exact Or.inr ⟨dst, t, hini, ht⟩
    cases rP with
    | some e =>
      dsimp only at hres
      have h1 : stP = st' := congrArg Prod.fst hres
      have h2 : some e = r := congrArg Prod.snd hres
      subst h1
      refine ⟨?_, hprcover, ?_⟩
      · intro p b hb
        rw [DstFs_lookup_congr _ _ hprfiles p] at hb
        exact Or.inl hb
      · intro hr
        rw [hr] at h2
        simp at h2
    | none =>
      dsimp only at hres
      have hcov := copyEntries_log_coverage env d src dst es stP st' r hgood hres
      refine ⟨?_, ?_, ?_⟩
      · intro p b hb
        rcases hcov.1 p b hb with hat | hline
        · rw [DstFs_lookup_congr _ _ hprfiles p] at hat
          exact Or.inl hat
        · exact Or.inr hline
      · intro p hp
        rcases hcov.2 p hp with hat | hline
        · rcases hprcover p hat with hin | ⟨q, t, hq, hql⟩
          · exact Or.inl hin
          · have hm := copyEntries_log_mem env d src dst es stP _ hql
            rw [hres] at hm
            exact Or.inr ⟨q, t, hq, hm⟩
        · exact Or.inr hline
      · intro hr
        subst hr
        exact copyEntries_descents_logged env d src dst es stP st' hgood hres


/-! ## Network listing and connectivity test (reports.rs:817-855)

The spawned worker thread and `recv_timeout` are modelled by an arrival
time (seconds until the worker's result lands on the channel) and the
result itself; `recv_timeout T` delivers the result iff it arrives within
`T` seconds, otherwise the command returns its timeout error. -/

/-- Model of `list_network_reports` (reports.rs:818-838): normalize the UNC path,
run the listing on a worker thread, wait at most 10 seconds.
`listShare` is the worker's computation (`list_reports_in_dir` on the
prepared path), `arrival` when its result lands on the channel. -/
def list_network_reports (listShare : Path → Except String (List String))
    (unc_path : String) (arrival : Nat) : Except String (List String) :=
  if arrival ≤ 10 then listShare (parsePath (normalize_unc_path unc_path))
  else Except.error "Network listing timed out"

/-- Model of `test_network_path` (reports.rs:841-855): normalize the UNC path, probe
it (`fs::read_dir` mapped to `true`) on a worker thread, wait at most 6
seconds. -/
def test_network_path (probe : Path → Except String Bool)
    (unc_path : String) (arrival : Nat) : Except String Bool :=
  if arrival ≤ 6 then probe (parsePath (normalize_unc_path unc_path))
  else Except.error "Network test timed out"

/-- Claim C6 — the network listing and connectivity-test commands bound the
caller's wait: when the worker's filesystem access does not produce a
result within 10 seconds, `list_network_reports` returns the error
`Network listing timed out`, and when it does, the caller gets exactly the
worker's result for the normalized path; `test_network_path` behaves the
same with a 6-second bound and the error `Network test timed out`. -/
theorem claim_C6_network_commands_bounded_wait :
    (∀ (listShare : Path → Except String (List String)) (unc : String) (arrival : Nat),
      (10 < arrival →
        list_network_reports listShare unc arrival =
          Except.error "Network listing timed out") ∧
      (arrival ≤ 10 →
        list_network_reports listShare unc arrival =
          listShare (parsePath (normalize_unc_path unc)))) ∧
    (∀ (probe : Path → Except String Bool) (unc : String) (arrival : Nat),
      (6 < arrival →
        test_network_path probe unc arrival = Except.error "Network test timed out") ∧
      (arrival ≤ 6 →
        test_network_path probe unc arrival =
          probe (parsePath (normalize_unc_path unc)))) := by
  constructor
  · intro listShare unc arrival
    constructor
    · intro h
      unfold list_network_reports
      rw [if_neg (by omega)]
    · intro h
      unfold list_network_reports
      rw [if_pos h]
  · intro probe unc arrival
    constructor
    · intro h
      unfold test_network_path
      rw [if_neg (by omega)]
    · intro h
      unfold test_network_path
      rw [if_pos h]

/-! ## Control channel and run launcher

The control-signal commands and the run launcher are not among the
delivered sources (only the shared slot `AppState.control_file_path` in
src/state.rs is), so they are modelled from the spec (§4.1, §4.2, §8). -/

/-- The three control actions of the control channel. -/
inductive ControlAction where
  | stop
  | pause
  | skip
deriving DecidableEq, Repr

/-- Content of a file in the launcher/control world: a plain text file
(e.g. the plan file) or a serialized `{action, timestamp}` signal record. -/
inductive FileData where
  | text (s : String)
  | signal (action : ControlAction) (timestamp : Nat)
deriving DecidableEq, Repr

/-- The process-wide state the control channel touches: the mutex-guarded
active control-file path (`AppState.control_file_path`) and the files on
disk. -/
structure RunnerWorld where
  controlSlot : Option String
  files : List (String × FileData)
deriving DecidableEq, Repr

def lookupFileData (files : List (String × FileData)) (p : String) : Option FileData :=
  (files.find? (fun e => e.1 == p)).map Prod.snd

/-- Modelled from the spec: the control-signal command implementation is
missing from src/.  Per §4.2, each of `stop`/`pause`/`skip` writes a
signal record to the path registered in the slot, overwriting any prior
content, and "if no run is active (no path registered), each command fails
with a 'no active run' error rather than silently writing a stray file". -/
def send_control_signal (w : RunnerWorld) (a : ControlAction) (ts : Nat) :
    RunnerWorld × Except String Unit :=
  match w.controlSlot with
  | none => (w, Except.error "No active run")
  | some p =>
    ({ w with files := (p, FileData.signal a ts) :: w.files }, Except.ok ())

/-- Claim C7 — whenever no run is active (the shared control-file-path slot
registers no path), each control-signal command (`stop`, `pause`, `skip`)
returns a "no active run" error and leaves the world unchanged: no control
file is created or written. -/
theorem claim_C7_no_active_run_signal_errors
    (w : RunnerWorld) (hslot : w.controlSlot = none) :
    ∀ (a : ControlAction) (ts : Nat),
      send_control_signal w a ts = (w, Except.error "No active run") := by
  intro a ts
  unfold send_control_signal
  rw [hslot]

/-- Outcomes of the launcher's fallible filesystem steps (spec §4.1: logs
directory creation failure and plan-file write failure are each fatal to
the launch). -/
structure LaunchEnv where
  createLogsDirFail : Option String
  writePlanFail : Option String

/-- Modelled from the spec: the run launcher implementation is missing from
src/.  Per §4.1 and §6 it writes the plan document verbatim to a fresh
timestamped file `run_plan_<millis>.json` under the logs directory, clears
any previous control-channel file, publishes a new control path in the
slot, and returns the plan-file path; directory-creation and plan-write
failures are fatal. -/
def launch_run (envL : LaunchEnv) (logsDir : String) (plan : String) (millis : Nat)
    (w : RunnerWorld) : RunnerWorld × Except String String :=
  match envL.createLogsDirFail with
  | some e => (w, Except.error ("Failed to create logs directory: " ++ e))
  | none =>
    match envL.writePlanFail with
    | some e => (w, Except.error ("Failed to write run plan: " ++ e))
    | none =>
      ({ controlSlot := some (logsDir ++ "/service_control.json"),
         files := (logsDir ++ "/run_plan_" ++ toString millis ++ ".json",
             FileData.text plan) ::
           w.files.filter (fun e => !(e.1 == logsDir ++ "/service_control.json")) },
        Except.ok (logsDir ++ "/run_plan_" ++ toString millis ++ ".json"))

/-- Claim C8 — for every plan document `P` (an arbitrary string), a launch
that succeeds has written a plan file whose contents equal `P` exactly,
byte for byte: looking the returned plan path up in the resulting world
yields precisely `P`. -/
theorem claim_C8_plan_round_trip
    (envL : LaunchEnv) (logsDir plan : String) (millis : Nat) (w w' : RunnerWorld)
    (planPath : String)
    (hok : launch_run envL logsDir plan millis w = (w', Except.ok planPath)) :
    lookupFileData w'.files planPath = some (FileData.text plan) := by
  revert hok
  unfold launch_run
  cases envL.createLogsDirFail with
  | some e => intro hok; simp at hok
  | none =>
    cases envL.writePlanFail with
    | some e => intro hok; simp at hok
    | none =>
      intro hok
      have h1 := congrArg Prod.fst hok
      have h2 := congrArg Prod.snd hok
      simp only at h1 h2
      have hpath : planPath = logsDir ++ "/run_plan_" ++ toString millis ++ ".json" := by
        injection h2 with h3
        exact h3.symm
      rw [← h1, hpath]
      unfold lookupFileData
      rw [List.find?_cons_of_pos _ (by simp)]
      rfl

/-! ## `save_report` (reports.rs:54-149) -/

/-- Outcomes of the filesystem operations `save_report` performs, in
program order.  `planExists` / `logExists` model the `Path::exists` checks
on the provided plan/log source paths. -/
structure SaveEnv where
  createReportsDirFail : Option String
  createFolderFail : Option String
  writeReportFail : Option String
  planExists : Bool
  planCopyFail : Option String
  logExists : Bool
  logCopyFail : Option String
  writeMetadataFail : Option String

/-- Model of `SaveReportRequest` (reports.rs:13-27). -/
structure SaveReportRequest where
  report_json : String
  plan_file_path : Option String
  log_file_path : Option String
  hostname : Option String
  customer_name : Option String
  technician_name : Option String

/-- Model of `SaveReportResponse` (reports.rs:29-37). -/
structure SaveReportResponse where
  success : Bool
  report_folder : Option String
  error : Option String
deriving DecidableEq, Repr

/-- Model of `sanitize_name` (reports.rs:942-963): keep alphanumerics, `-`, `_`;
map everything else to `_`; take at most 50 characters; trim `_` from both
ends.  (Rust's Unicode `is_alphanumeric` is modelled by `Char.isAlphanum`.) -/
def sanitize_name (name : String) : String :=
  String.mk (List.rdropWhile (fun c => c == '_')
    (List.dropWhile (fun c => c == '_')
      ((name.data.map (fun c =>
        if c.isAlphanum || c = '-' || c = '_' then c
        else '_')).take 50)))

/-- Model of `generate_folder_name` (reports.rs:906-931).  `dateStr` stands for
chrono's `%Y-%m-%d_%H-%M-%S` rendering of the timestamp (an external
collaborator). -/
def generate_folder_name (hostname customer_name technician_name : Option String)
    (dateStr : String) : String :=
  match technician_name with
  | some tech =>
    sanitize_name (hostname.getD "Unknown_PC") ++ "_" ++
      sanitize_name (customer_name.getD "Report") ++ "_" ++
      sanitize_name tech ++ "__" ++ dateStr
  | none =>
    sanitize_name (hostname.getD "Unknown_PC") ++ "_" ++
      sanitize_name (customer_name.getD "Report") ++ "__" ++ dateStr

/-- Model of `save_report` (reports.rs:54-149): always returns `Ok`; failures of the
first three filesystem steps produce `success = false` with a message,
while the `run_plan.json` / `execution.log` copies and the
`metadata.json` write are attempted but their outcomes discarded
(mirrored by the dropped `let` bindings). -/
def save_report (envS : SaveEnv) (data_dir : String) (request : SaveReportRequest)
    (dateStr : String) : Except String SaveReportResponse :=
  match envS.createReportsDirFail with
  | some e =>
    Except.ok ⟨false, none, some ("Failed to create reports directory: " ++ e)⟩
  | none =>
    match envS.createFolderFail with
    | some e =>
      Except.ok ⟨false, none, some ("Failed to create report folder: " ++ e)⟩
    | none =>
      match envS.writeReportFail with
      | some e =>
        Except.ok ⟨false, none, some ("Failed to write report.json: " ++ e)⟩
      | none =>
        let _planOutcome :=
          if request.plan_file_path.isSome && envS.planExists then envS.planCopyFail
          else none
        let _logOutcome :=
          if request.log_file_path.isSome && envS.logExists then envS.logCopyFail
          else none
        let _metaOutcome := envS.writeMetadataFail
        Except.ok ⟨true,
          some (data_dir ++ "/reports/" ++
            generate_folder_name request.hostname request.customer_name
              request.technician_name dateStr),
          none⟩

/-- Claim C9 — `save_report` never returns the `Err` variant for I/O
failures: a failure to create the reports directory or the report folder,
or to write `report.json`, yields an `Ok` response with `success = false`
and an error message, while failures to copy `run_plan.json` or
`execution.log` or to write `metadata.json` (arbitrary in the quantified
environment) are silently ignored and the response still has
`success = true` with the saved folder path. -/
theorem claim_C9_save_report_never_err
    (envS : SaveEnv) (data_dir : String) (request : SaveReportRequest)
    (dateStr : String) :
    (∃ resp, save_report envS data_dir request dateStr = Except.ok resp) ∧
    (∀ e, envS.createReportsDirFail = some e →
      save_report envS data_dir request dateStr =
        Except.ok ⟨false, none, some ("Failed to create reports directory: " ++ e)⟩) ∧
    (envS.createReportsDirFail = none → ∀ e, envS.createFolderFail = some e →
      save_report envS data_dir request dateStr =
        Except.ok ⟨false, none, some ("Failed to create report folder: " ++ e)⟩) ∧
    (envS.createReportsDirFail = none → envS.createFolderFail = none →
      ∀ e, envS.writeReportFail = some e →
      save_report envS data_dir request dateStr =
        Except.ok ⟨false, none, some ("Failed to write report.json: " ++ e)⟩) ∧
    (envS.createReportsDirFail = none → envS.createFolderFail = none →
      envS.writeReportFail = none →
      save_report envS data_dir request dateStr =
        Except.ok ⟨true,
          some (data_dir ++ "/reports/" ++
            generate_folder_name request.hostname request.customer_name
              request.technician_name dateStr),
          none⟩) := by
  refine ⟨?_, ?_, ?_, ?_, ?_⟩
  · unfold save_report
    cases envS.createReportsDirFail with
    | some e => exact ⟨_, rfl⟩
    | none =>
      cases envS.createFolderFail with
      | some e => exact ⟨_, rfl⟩
      | none =>
        cases envS.writeReportFail with
        | some e => exact ⟨_, rfl⟩
        | none => exact ⟨_, rfl⟩
  · intro e he
    unfold save_report
    rw [he]
  · intro h1 e he
    unfold save_report
    rw [h1, he]
  · intro h1 h2 e he
    unfold save_report
    rw [h1, h2, he]
  · intro h1 h2 h3
    unfold save_report
    rw [h1, h2, h3]


/-! ## Concrete scenarios for the witnesses -/

/-- All primitives succeed instantly and the logger works. -/
def envOkW : Env :=
  { hasLogFile := true, logOpenFail := fun _ => false,
    createDirFail := fun _ => none, readDirFail := fun _ => none,
    entryFail := fun _ _ => none, copyFail := fun _ _ => none,
    probeFail := none, durCreate := fun _ => 0, durRead := fun _ => 0,
    durCopy := fun _ => 0, durProbe := 0 }

/-- Like `envOkW` but the probe of the share reports not-found. -/
def envNotFoundW : Env :=
  { envOkW with probeFail := some ⟨IoErrorKind.notFound, "os error 53"⟩ }

/-- Like `envOkW` but copying `r/a.txt` is denied. -/
def envCopyFailW : Env :=
  { envOkW with copyFail := fun p _ =>
      if p = ["r", "a.txt"] then some ⟨IoErrorKind.permissionDenied, "denied"⟩
      else none }

/-- Like `envOkW` but each file copy takes 200 seconds of wall clock. -/
def envSlowCopyW : Env :=
  { envOkW with durCopy := fun _ => 200 }

/-- A network target configuration. -/
def cfgNetW : NetworkConfig := ⟨"/net", some "network"⟩

/-- A report folder containing a nested subdirectory with one file. -/
def treeNestedW : List (String × FsTree) :=
  [("sub", FsTree.dir [("a.txt", FsTree.file [1, 2])])]

/-! ### Fuel-indexed twin of the copy walk, for concrete evaluation -/

/-- Fuel-indexed twin of `copyEntries`, structurally recursive on the fuel so
that the kernel can evaluate it on concrete inputs; it agrees with
`copyEntries` whenever the fuel dominates the entry list's size. -/
def copyEntriesFuel (env : Env) (d : Option Nat) :
    Nat → Path → Path → List (String × FsTree) → St → St × Option IoError
  | _, _, _, [], st => (st, none)
  | 0, _, _, _ :: _, st => (st, none)
  | fuel + 1, src, dst, (name, sub) :: rest, st =>
    match env.entryFail src name with
    | some e =>
      (st, some ⟨e.kind, "Failed to iterate directory " ++ renderPath src ++ ": " ++ e.msg⟩)
    | none =>
      match
        (match sub with
         | FsTree.dir subEntries =>
           match copyDirPrologue env d (src ++ [name]) (dst ++ [name])
               (st.doLog env ("Descending into " ++ renderPath (src ++ [name]))) with
           | (st2, some e) => (st2, some e)
           | (st2, none) =>
             copyEntriesFuel env d fuel (src ++ [name]) (dst ++ [name]) subEntries st2
         | FsTree.file content =>
           copyFileStep env (src ++ [name]) (dst ++ [name]) content st) with
      | (st2, some e) => (st2, some e)
      | (st2, none) =>
        if deadlineExceeded d st2.time then
          (st2, some ⟨IoErrorKind.timedOut,
            "Copy timed out while processing " ++ renderPath (src ++ [name])⟩)
        else copyEntriesFuel env d fuel src dst rest st2

theorem copyEntriesFuel_eq (env : Env) (d : Option Nat) : ∀ (n : Nat),
    ∀ (es : List (String × FsTree)), sizeOf es ≤ n →
    ∀ (src dst : Path) (st : St),
      copyEntriesFuel env d n src dst es st = copyEntries env d src dst es st := by
  intro n
  induction n with
  | zero =>
    intro es hes
    have := sizeOf_list_pos es
    omega
  | succ n ih =>
    intro es hes src dst st
    match es with
    | [] =>
      rw [copyEntries_nil]
      simp only [copyEntriesFuel]
    | (name, sub) :: rest =>
      have hrest : sizeOf rest ≤ n := by
        have := sizeOf_rest_lt name sub rest
        omega
      cases he : env.entryFail src name with
      | some e =>
        rw [copyEntries_cons_iter_fail env d src dst name sub rest st e he]
        cases sub <;> simp only [copyEntriesFuel, he]
      | none =>
        rw [copyEntries_cons_ok env d src dst name sub rest st he]
        cases sub with
        | file content =>
          simp only [copyEntriesFuel, he, stepEntry]
          cases hstep : copyFileStep env (src ++ [name]) (dst ++ [name]) content st with
          | mk st2 r =>
            cases r with
            | some e => rfl
            | none =>
              dsimp only
              by_cases hd : deadlineExceeded d st2.time
              · rw [if_pos hd, if_pos hd]
              · rw [if_neg hd, if_neg hd]
                exact ih rest hrest src dst st2
        | dir subEntries =>
          have hsub : sizeOf subEntries ≤ n := by
            have := sizeOf_sub_lt name subEntries rest
            omega
          simp only [copyEntriesFuel, he, stepEntry]
          cases hpro : copyDirPrologue env d (src ++ [name]) (dst ++ [name])
              (st.doLog env ("Descending into " ++ renderPath (src ++ [name]))) with
          | mk st2 r =>
            cases r with
            | some e => rfl
            | none =>
              dsimp only
              rw [ih subEntries hsub (src ++ [name]) (dst ++ [name]) st2]
              cases hrec : copyEntries env d (src ++ [name]) (dst ++ [name]) subEntries st2 with
              | mk st3 r2 =>
                cases r2 with
                | some e => rfl
                | none =>
                  dsimp only
                  by_cases hd : deadlineExceeded d st3.time
                  · rw [if_pos hd, if_pos hd]
                  · rw [if_neg hd, if_neg hd]
                    exact ih rest hrest src dst st3

/-- Twin of `copy_dir_recursive` running the fuel-indexed entry walk. -/
def copy_dir_recursiveF (env : Env) (fuel : Nat) (d : Option Nat) (src dst : Path)
    (entries : List (String × FsTree)) (st : St) : St × Option IoError :=
  match copyDirPrologue env d src dst st with
  | (st1, some e) => (st1, some e)
  | (st1, none) => copyEntriesFuel env d fuel src dst entries st1

theorem copy_dir_recursiveF_eq (env : Env) (fuel : Nat) (d : Option Nat) (src dst : Path)
    (entries : List (String × FsTree)) (st : St) (hfuel : sizeOf entries ≤ fuel) :
    copy_dir_recursiveF env fuel d src dst entries st =
      copy_dir_recursive env d src dst entries st := by
  unfold copy_dir_recursiveF copy_dir_recursive
  cases hpro : copyDirPrologue env d src dst st with
  | mk st1 r =>
    cases r with
    | some e => rfl
    | none =>
      dsimp only
      exact copyEntriesFuel_eq env d fuel entries hfuel src dst st1

/-- Twin of `saveReportCopyPhase` running the fuel-indexed copy. -/
def saveReportCopyPhaseF (env : Env) (fuel : Nat) (src dst : Path)
    (entries : List (String × FsTree)) (st : St) : St × Except String Bool :=
  let st1 := st.doLog env ("Copy target resolved to " ++ renderPath dst)
  let deadline := st1.time + 120
  match copy_dir_recursiveF env fuel (some deadline) src dst entries st1 with
  | (st2, some e) =>
    (st2.doLog env ("Copy failed for " ++ renderPath src ++ " -> " ++ renderPath dst ++
        ": " ++ e.msg),
      Except.error ("Copy failed: " ++ e.msg))
  | (st2, none) =>
    (st2.doLog env ("Network copy completed successfully for " ++ renderPath src ++
        " -> " ++ renderPath dst),
      Except.ok true)

theorem saveReportCopyPhaseF_eq (env : Env) (fuel : Nat) (src dst : Path)
    (entries : List (String × FsTree)) (st : St) (hfuel : sizeOf entries ≤ fuel) :
    saveReportCopyPhaseF env fuel src dst entries st =
      saveReportCopyPhase env src dst entries st := by
  unfold saveReportCopyPhaseF saveReportCopyPhase
  dsimp only
  rw [copy_dir_recursiveF_eq env fuel _ src dst entries _ hfuel]

/-- Twin of `save_report_to_network` running the fuel-indexed copy phase. -/
def save_report_to_networkF (env : Env) (fuel : Nat) (report_path : Path)
    (srcTree : Option (List (String × FsTree))) (cfg : NetworkConfig) (st : St) :
    St × Except String Bool :=
  let save_mode := cfg.save_mode.getD "unknown"
  let st := st.doLog env ("Starting network copy | report_path=\x27" ++
    renderPath report_path ++ "\x27 | unc_path=\x27" ++ cfg.unc_path ++
    "\x27 | mode=\x27" ++ save_mode ++ "\x27")
  let normalized := normalize_unc_path cfg.unc_path
  if normalized = "" then
    (st.doLog env "UNC path is empty", Except.error "UNC path is empty")
  else
    match srcTree with
    | none =>
      let msg := "Local report path not found or not a directory: " ++
        renderPath report_path
      (st.doLog env msg, Except.error msg)
    | some entries =>
      match report_path.getLast? with
      | none =>
        let msg := "Failed to derive folder name from " ++ renderPath report_path
        (st.doLog env msg, Except.error msg)
      | some folder_name =>
        let dst_root := parsePath normalized
        let st := st.doLog env ("Resolved destination root \x27" ++ normalized ++
          "\x27 (io path: \x27" ++ normalized ++ "\x27)")
        let st : St := { st with time := st.time + env.durProbe }
        match env.probeFail with
        | none =>
          let st := st.doLog env ("Verified network share is reachable: " ++ normalized)
          saveReportCopyPhaseF env fuel report_path (dst_root ++ [folder_name]) entries st
        | some e =>
          let st := st.doLog env ("Warning: unable to list network share " ++
            normalized ++ ": " ++ e.msg)
          if e.kind = IoErrorKind.notFound then
            (st, Except.error ("Network share not found: " ++ normalized))
          else
            saveReportCopyPhaseF env fuel report_path (dst_root ++ [folder_name]) entries st

theorem save_report_to_networkF_eq (env : Env) (fuel : Nat) (report_path : Path)
    (srcTree : Option (List (String × FsTree))) (cfg : NetworkConfig) (st : St)
    (hfuel : sizeOf (srcTree.getD []) ≤ fuel) :
    save_report_to_networkF env fuel report_path srcTree cfg st =
      save_report_to_network env report_path srcTree cfg st := by
  unfold save_report_to_networkF save_report_to_network
  dsimp only
  cases srcTree with
  | none => rfl
  | some entries =>
    simp only [Option.getD] at hfuel
    by_cases hnorm : normalize_unc_path cfg.unc_path = ""
    · rw [if_pos hnorm, if_pos hnorm]
    · rw [if_neg hnorm, if_neg hnorm]
      dsimp only
      cases report_path.getLast? with
      | none => rfl
      | some folder_name =>
        dsimp only
        cases env.probeFail with
        | none =>
          dsimp only
          exact saveReportCopyPhaseF_eq env fuel _ _ entries _ hfuel
        | some e =>
          dsimp only
          by_cases hk : e.kind = IoErrorKind.notFound
          · rw [if_pos hk, if_pos hk]
          · rw [if_neg hk, if_neg hk]
            exact saveReportCopyPhaseF_eq env fuel _ _ entries _ hfuel

/-! ## Witnesses -/

set_option maxRecDepth 40000 in
/-- Witness for claim C1 at a concrete successful network copy: the nested
file `sub/a.txt` of the local report folder `reports/r1` ends up at
`net/r1/sub/a.txt` with identical bytes. -/
theorem claim_C1_network_copy_mirrors_source_witness :
    (save_report_to_network envOkW ["reports", "r1"] (some treeNestedW) cfgNetW
      stFresh).1.fs.lookupFile
        (parsePath (normalize_unc_path cfgNetW.unc_path) ++ "r1" :: ["sub", "a.txt"]) =
      some [1, 2] := by
  have hsnd : (save_report_to_network envOkW ["reports", "r1"] (some treeNestedW)
      cfgNetW stFresh).2 = Except.ok true := by
    have hf : sizeOf ((some treeNestedW).getD ([] : List (String × FsTree))) ≤ 100000 := by
      decide
    rw [← save_report_to_networkF_eq envOkW 100000 ["reports", "r1"] (some treeNestedW)
      cfgNetW stFresh hf]
    rfl
  have hok : save_report_to_network envOkW ["reports", "r1"] (some treeNestedW)
      cfgNetW stFresh =
      ((save_report_to_network envOkW ["reports", "r1"] (some treeNestedW)
        cfgNetW stFresh).1, Except.ok true) := by
    rw [← hsnd]
  have hmain := claim_C1_network_copy_mirrors_source envOkW ["reports", "r1"]
    treeNestedW cfgNetW stFresh _ "r1" (by simp [wfEntries, treeNestedW]) rfl rfl hok
  exact (hmain ["sub", "a.txt"] (FsTree.file [1, 2])
    (by simp [FsTree.find, treeNestedW])).2 [1, 2] rfl

/-- Witness for claim C2 at a concrete run whose probe reports not-found:
the call errors with the share name and the destination world is
untouched. -/
theorem claim_C2_probe_not_found_aborts_others_proceed_witness :
    ∃ stX, save_report_to_network envNotFoundW ["reports", "r1"] (some treeNestedW)
        cfgNetW stFresh =
      (stX, Except.error ("Network share not found: " ++
        normalize_unc_path cfgNetW.unc_path)) ∧
      stX.fs = stFresh.fs :=
  (claim_C2_probe_not_found_aborts_others_proceed envNotFoundW ["reports", "r1"]
    treeNestedW cfgNetW stFresh "r1" ⟨IoErrorKind.notFound, "os error 53"⟩
    (by decide) rfl rfl).1 rfl

/-- Witness for claim C3 at a concrete denied file copy: the walk stops at
`r/a.txt` with the pair-naming message and the sibling entry `zz` is never
processed (the result is the logged state plus the error). -/
theorem claim_C3_first_error_aborts_witness :
    copyEntries envCopyFailW (some 120) ["r"] ["s"]
      [("a.txt", FsTree.file [1]), ("zz", FsTree.file [2])] stFresh =
      (stFresh.doLog envCopyFailW ("Copying file " ++ renderPath (["r"] ++ ["a.txt"]) ++
        " -> " ++ renderPath (["s"] ++ ["a.txt"])),
        some ⟨IoErrorKind.permissionDenied,
          "Failed to copy " ++ renderPath (["r"] ++ ["a.txt"]) ++ " -> " ++
            renderPath (["s"] ++ ["a.txt"]) ++ ": " ++ "denied"⟩) :=
  (claim_C3_first_error_aborts.1 envCopyFailW (some 120) ["r"] ["s"] "a.txt" [1]
    [("zz", FsTree.file [2])] stFresh ⟨IoErrorKind.permissionDenied, "denied"⟩
    rfl (by decide)).1

/-- Witness for claim C4 at a concrete run whose single file copy takes 200
seconds against a 120-second deadline: the copy itself completes (the file
is present at the destination) and only then the walk aborts with the
timed-out error naming the file. -/
theorem claim_C4_deadline_checked_between_entries_witness :
    ∃ st2, copyEntries envSlowCopyW (some 120) ["r"] ["s"]
        [("a.txt", FsTree.file [9])] stFresh =
      (st2, some ⟨IoErrorKind.timedOut,
        "Copy timed out while processing " ++ renderPath (["r"] ++ ["a.txt"])⟩) ∧
      st2.fs.lookupFile (["s"] ++ ["a.txt"]) = some [9] :=
  claim_C4_deadline_checked_between_entries.2.1 envSlowCopyW (some 120) ["r"] ["s"]
    "a.txt" [9] [] stFresh rfl (by decide) (by decide)

/-- Witness for claim C5's amended theorem at a concrete successful run with
a working logger: the file and directory coverage conclusions hold for the
run of `copy_dir_recursive` on the nested tree, and the descent into its
subdirectory `r/sub` left its `Descending into` line in the final log. -/
theorem claim_C5_every_processed_item_logged_witness :
    (∀ p b, (copy_dir_recursive envOkW (some 120) ["r"] ["s"] treeNestedW
        stFresh).1.fs.lookupFile p = some b →
      stFresh.fs.lookupFile p = some b ∨
      ∃ sp t, (t, "Copying file " ++ renderPath sp ++ " -> " ++ renderPath p) ∈
        (copy_dir_recursive envOkW (some 120) ["r"] ["s"] treeNestedW stFresh).1.log) ∧
    (∀ p, p ∈ (copy_dir_recursive envOkW (some 120) ["r"] ["s"] treeNestedW
        stFresh).1.fs.dirs →
      p ∈ stFresh.fs.dirs ∨
      ∃ q t, isInitOf p q ∧ (t, "Created directory " ++ renderPath q) ∈
        (copy_dir_recursive envOkW (some 120) ["r"] ["s"] treeNestedW stFresh).1.log) ∧
    (∃ t, (t, "Descending into " ++ renderPath (["r"] ++ ["sub"])) ∈
      (copy_dir_recursive envOkW (some 120) ["r"] ["s"] treeNestedW stFresh).1.log) := by
  have hsnd : (copy_dir_recursive envOkW (some 120) ["r"] ["s"] treeNestedW
      stFresh).2 = none := by
    have hf : sizeOf treeNestedW ≤ 100000 := by decide
    rw [← copy_dir_recursiveF_eq envOkW 100000 (some 120) ["r"] ["s"] treeNestedW
      stFresh hf]
    rfl
  have hres : copy_dir_recursive envOkW (some 120) ["r"] ["s"] treeNestedW stFresh =
      ((copy_dir_recursive envOkW (some 120) ["r"] ["s"] treeNestedW stFresh).1,
        none) := by
    rw [← hsnd]
  have hmain := claim_C5_every_processed_item_logged envOkW (some 120) ["r"] ["s"]
    treeNestedW stFresh _ _ ⟨rfl, fun _ => rfl⟩ hres
  refine ⟨hmain.1, hmain.2.1, ?_⟩
  exact hmain.2.2 rfl ["sub"] (by simp)
    ⟨[("a.txt", FsTree.file [1, 2])], by simp [FsTree.find, treeNestedW]⟩

/-- Witness for claim C6 at concrete worker outcomes: a listing arriving
after 11 seconds times out with the exact message, one arriving after 3
seconds is delivered for the normalized path; the connectivity test
behaves accordingly at 7 and 2 seconds. -/
theorem claim_C6_network_commands_bounded_wait_witness :
    list_network_reports (fun _ => Except.ok ["x"]) "/net" 11 =
      Except.error "Network listing timed out" ∧
    list_network_reports (fun p => Except.ok p) "/net" 3 = Except.ok ["net"] ∧
    test_network_path (fun _ => Except.ok true) "/net" 7 =
      Except.error "Network test timed out" ∧
    test_network_path (fun _ => Except.ok true) "/net" 2 = Except.ok true := by
  refine ⟨?_, ?_, ?_, ?_⟩
  · exact ((claim_C6_network_commands_bounded_wait.1 (fun _ => Except.ok ["x"])
      "/net" 11).1 (by omega))
  · rw [(claim_C6_network_commands_bounded_wait.1 (fun p => Except.ok p)
      "/net" 3).2 (by omega)]
    rfl
  · exact ((claim_C6_network_commands_bounded_wait.2 (fun _ => Except.ok true)
      "/net" 7).1 (by omega))
  · rw [(claim_C6_network_commands_bounded_wait.2 (fun _ => Except.ok true)
      "/net" 2).2 (by omega)]

/-- Witness for claim C7 at a concrete world with no active run: every
signal errors and the world (slot and files) is unchanged. -/
theorem claim_C7_no_active_run_signal_errors_witness :
    send_control_signal ⟨none, []⟩ ControlAction.stop 5 =
      (⟨none, []⟩, Except.error "No active run") :=
  claim_C7_no_active_run_signal_errors ⟨none, []⟩ rfl ControlAction.stop 5

/-- Witness for claim C8 at a concrete launch: the plan file written for
plan document `{"tasks":[]}` contains exactly that string. -/
theorem claim_C8_plan_round_trip_witness :
    lookupFileData (launch_run ⟨none, none⟩ "logs" "\x7b\x22tasks\x22:[]\x7d" 42
      ⟨none, []⟩).1.files ("logs" ++ "/run_plan_" ++ toString 42 ++ ".json") =
      some (FileData.text "\x7b\x22tasks\x22:[]\x7d") := by
  have hsnd : (launch_run ⟨none, none⟩ "logs" "\x7b\x22tasks\x22:[]\x7d" 42
      ⟨none, []⟩).2 = Except.ok ("logs" ++ "/run_plan_" ++ toString 42 ++ ".json") := by
    rfl
  have hok : launch_run ⟨none, none⟩ "logs" "\x7b\x22tasks\x22:[]\x7d" 42 ⟨none, []⟩ =
      ((launch_run ⟨none, none⟩ "logs" "\x7b\x22tasks\x22:[]\x7d" 42 ⟨none, []⟩).1,
        Except.ok ("logs" ++ "/run_plan_" ++ toString 42 ++ ".json")) := by
    rw [← hsnd]
  exact claim_C8_plan_round_trip ⟨none, none⟩ "logs" "\x7b\x22tasks\x22:[]\x7d" 42
    ⟨none, []⟩ _ _ hok

/-- Witness for claim C9 at a concrete environment in which the plan copy,
log copy and metadata write all fail: `save_report` still answers
`Ok` with `success = true` and the folder path. -/
theorem claim_C9_save_report_never_err_witness :
    save_report ⟨none, none, none, true, some "denied", true, some "denied2",
        some "metafail"⟩ "data"
      ⟨"\x7b\x7d", some "p.json", some "l.log", some "PC", some "Cust", none⟩ "2026-01-01" =
      Except.ok ⟨true,
        some ("data" ++ "/reports/" ++
          generate_folder_name (some "PC") (some "Cust") none "2026-01-01"),
        none⟩ :=
  (claim_C9_save_report_never_err ⟨none, none, none, true, some "denied", true,
    some "denied2", some "metafail"⟩ "data"
    ⟨"\x7b\x7d", some "p.json", some "l.log", some "PC", some "Cust", none⟩
    "2026-01-01").2.2.2.2 rfl rfl rfl

end AutoService
